import Mathlib

/-!
Verification of the Equicloud delta-sync backend.

This file gives a shallow embedding, in Lean, of the core of the Equicloud
server (a Rust program): the identifier hasher (`src/lib/hash_migration.rs`),
the blob codec and key validator (`src/lib/utils.rs`), the storage operations
(`src/lib/database.rs`), the settings routes (`src/routes/v1/settings.rs`),
the auth verifier (`src/middleware/auth.rs`) and the delta-sync engine
(`src/routes/v2/sync.rs`).  Bytes are `List Nat` (each < 256), Rust `i64`/`i32`
are `Int`, `usize` is `Nat`.  The external zstd codec is a parameter: an
oracle function `List Nat → Option (List Nat)`; the wrappers around it are
embedded faithfully.  Database tables are per-user association lists; a CQL
`INSERT` is an upsert by primary key and fallible statements are modelled on
their success path unless a claim is about failure, in which case the failure
is an explicit parameter.
-/

set_option maxRecDepth 8000

namespace Equicloud

/-! ## Byte-level primitives -/

/-- UTF-8 encoding of one unicode scalar value. -/
def utf8EncodeChar (c : Nat) : List Nat :=
  if c < 0x80 then [c]
  else if c < 0x800 then [0xC0 ||| (c >>> 6), 0x80 ||| (c &&& 0x3F)]
  else if c < 0x10000 then
    [0xE0 ||| (c >>> 12), 0x80 ||| ((c >>> 6) &&& 0x3F), 0x80 ||| (c &&& 0x3F)]
  else
    [0xF0 ||| (c >>> 18), 0x80 ||| ((c >>> 12) &&& 0x3F),
     0x80 ||| ((c >>> 6) &&& 0x3F), 0x80 ||| (c &&& 0x3F)]

/-- UTF-8 bytes of a string, as Rust `str::as_bytes`. -/
def strBytes (s : String) : List Nat :=
  (s.data.map (fun c => utf8EncodeChar c.toNat)).flatten

/-- Whether `b` is a UTF-8 continuation byte. -/
def isCont (b : Nat) : Bool := 0x80 ≤ b && b < 0xC0

/-- UTF-8 decoding loop (fuel-driven; strict, as Rust `String::from_utf8`):
rejects overlong forms, surrogates and out-of-range scalar values. -/
def utf8DecodeLoop : Nat → List Nat → Option (List Char)
  | _, [] => some []
  | 0, _ :: _ => none
  | fuel + 1, b :: rest =>
    if b < 0x80 then
      (utf8DecodeLoop fuel rest).map (fun cs => Char.ofNat b :: cs)
    else if b < 0xC2 then none
    else if b < 0xE0 then
      match rest with
      | b2 :: r2 =>
        if isCont b2 then
          let c := (b - 0xC0) * 64 + (b2 - 0x80)
          (utf8DecodeLoop fuel r2).map (fun cs => Char.ofNat c :: cs)
        else none
      | _ => none
    else if b < 0xF0 then
      match rest with
      | b2 :: b3 :: r2 =>
        if isCont b2 && isCont b3 then
          let c := (b - 0xE0) * 4096 + (b2 - 0x80) * 64 + (b3 - 0x80)
          if c < 0x800 ∨ (0xD800 ≤ c ∧ c < 0xE000) then none
          else (utf8DecodeLoop fuel r2).map (fun cs => Char.ofNat c :: cs)
        else none
      | _ => none
    else if b < 0xF5 then
      match rest with
      | b2 :: b3 :: b4 :: r2 =>
        if isCont b2 && isCont b3 && isCont b4 then
          let c := (b - 0xF0) * 262144 + (b2 - 0x80) * 4096 + (b3 - 0x80) * 64 + (b4 - 0x80)
          if c < 0x10000 ∨ 0x110000 ≤ c then none
          else (utf8DecodeLoop fuel r2).map (fun cs => Char.ofNat c :: cs)
        else none
      | _ => none
    else none

/-- Strict UTF-8 decoding of a byte list (Rust `String::from_utf8`). -/
def utf8Decode (bytes : List Nat) : Option String :=
  (utf8DecodeLoop bytes.length bytes).map (fun cs => String.mk cs)

/-- Lowercase hex digit for `n < 16`. -/
def hexDigit (n : Nat) : Char :=
  if n < 10 then Char.ofNat (48 + n) else Char.ofNat (87 + n)

/-- Lowercase hex of a byte list (Rust `hex::encode`). -/
def hexEncode (bytes : List Nat) : String :=
  String.mk ((bytes.map (fun b => [hexDigit (b / 16), hexDigit (b % 16)])).flatten)

/-- Rust `format!` with the `:08x` specifier, for `n < 2^32`. -/
def hex8 (n : Nat) : String :=
  String.mk [hexDigit ((n >>> 28) &&& 0xF), hexDigit ((n >>> 24) &&& 0xF),
             hexDigit ((n >>> 20) &&& 0xF), hexDigit ((n >>> 16) &&& 0xF),
             hexDigit ((n >>> 12) &&& 0xF), hexDigit ((n >>> 8) &&& 0xF),
             hexDigit ((n >>> 4) &&& 0xF), hexDigit (n &&& 0xF)]

/-! ## CRC32 (IEEE, reflected polynomial; `crc32fast::hash`) -/

/-- One bit step of the CRC32 remainder computation. -/
def crc32Step (c : Nat) : Nat :=
  if c % 2 = 1 then 0xEDB88320 ^^^ (c >>> 1) else c >>> 1

/-- CRC32 table entry for byte `n` (eight bit steps). -/
def crc32Table (n : Nat) : Nat :=
  crc32Step (crc32Step (crc32Step (crc32Step
    (crc32Step (crc32Step (crc32Step (crc32Step n)))))))

/-- CRC32 of a byte list (`crc32fast::hash`). -/
def crc32 (bytes : List Nat) : Nat :=
  (bytes.foldl (fun crc b => (crc >>> 8) ^^^ crc32Table ((crc ^^^ b) &&& 0xFF)) 0xFFFFFFFF)
    ^^^ 0xFFFFFFFF

/-! ## SHA-256 -/

/-- The 64 SHA-256 round constants, decimal. -/
def sha256K : List Nat :=
  [1116352408, 1899447441, 3049323471, 3921009573, 961987163, 1508970993,
   2453635748, 2870763221, 3624381080, 310598401, 607225278, 1426881987,
   1925078388, 2162078206, 2614888103, 3248222580, 3835390401, 4022224774,
   264347078, 604807628, 770255983, 1249150122, 1555081692, 1996064986,
   2554220882, 2821834349, 2952996808, 3210313671, 3336571891, 3584528711,
   113926993, 338241895, 666307205, 773529912, 1294757372, 1396182291,
   1695183700, 1986661051, 2177026350, 2456956037, 2730485921, 2820302411,
   3259730800, 3345764771, 3516065817, 3600352804, 4094571909, 275423344,
   430227734, 506948616, 659060556, 883997877, 958139571, 1322822218,
   1537002063, 1747873779, 1955562222, 2024104815, 2227730452, 2361852424,
   2428436474, 2756734187, 3204031479, 3329325298]

/-- The SHA-256 initial hash state, decimal. -/
def sha256H0 : List Nat :=
  [1779033703, 3144134277, 1013904242, 2773480762,
   1359893119, 2600822924, 528734635, 1541459225]

/-- Right rotation of a 32-bit word. -/
def rotr32 (n x : Nat) : Nat := ((x >>> n) ||| (x <<< (32 - n))) &&& 0xFFFFFFFF

/-- Addition modulo `2^32`. -/
def add32 (a b : Nat) : Nat := (a + b) % 4294967296

/-- SHA-256 message padding: append `0x80`, zeros, and the 64-bit big-endian
bit length, reaching a multiple of 64 bytes. -/
def sha256Pad (msg : List Nat) : List Nat :=
  let len := msg.length
  let zeros := (64 - (len + 9) % 64) % 64
  let bitLen := len * 8
  msg ++ [0x80] ++ List.replicate zeros 0 ++
    [(bitLen >>> 56) &&& 0xFF, (bitLen >>> 48) &&& 0xFF, (bitLen >>> 40) &&& 0xFF,
     (bitLen >>> 32) &&& 0xFF, (bitLen >>> 24) &&& 0xFF, (bitLen >>> 16) &&& 0xFF,
     (bitLen >>> 8) &&& 0xFF, bitLen &&& 0xFF]

/-- Group bytes into 32-bit big-endian words. -/
def toWords : List Nat → List Nat
  | a :: b :: c :: d :: rest => (a * 16777216 + b * 65536 + c * 256 + d) :: toWords rest
  | _ => []

/-- Extend the 16 block words to the 64-word message schedule; `fuel` counts
the words still to append (48 at the top call). -/
def sha256Extend : Nat → List Nat → List Nat
  | 0, w => w
  | fuel + 1, w =>
    let i := w.length
    let w15 := w.getD (i - 15) 0
    let w2 := w.getD (i - 2) 0
    let s0 := (rotr32 7 w15) ^^^ (rotr32 18 w15) ^^^ (w15 >>> 3)
    let s1 := (rotr32 17 w2) ^^^ (rotr32 19 w2) ^^^ (w2 >>> 10)
    sha256Extend fuel (w ++ [add32 (add32 (w.getD (i - 16) 0) s0) (add32 (w.getD (i - 7) 0) s1)])

/-- One round of the SHA-256 compression function. -/
def sha256Round (st : List Nat) (kw : Nat × Nat) : List Nat :=
  match st with
  | [a, b, c, d, e, f, g, h] =>
    let s1 := (rotr32 6 e) ^^^ (rotr32 11 e) ^^^ (rotr32 25 e)
    let ch := (e &&& f) ^^^ ((0xFFFFFFFF ^^^ e) &&& g)
    let t1 := add32 (add32 (add32 h s1) (add32 ch kw.1)) kw.2
    let s0 := (rotr32 2 a) ^^^ (rotr32 13 a) ^^^ (rotr32 22 a)
    let maj := (a &&& b) ^^^ (a &&& c) ^^^ (b &&& c)
    let t2 := add32 s0 maj
    [add32 t1 t2, a, b, c, add32 d t1, e, f, g]
  | other => other

/-- Compress one 64-byte block into the hash state. -/
def sha256Block (hstate : List Nat) (block : List Nat) : List Nat :=
  let w := sha256Extend 48 (toWords block)
  let final := (sha256K.zip w).foldl sha256Round hstate
  (hstate.zip final).map (fun p => add32 p.1 p.2)

/-- Split a list into 64-byte chunks (fuel-driven). -/
def chunks64F : Nat → List Nat → List (List Nat)
  | _, [] => []
  | 0, _ :: _ => []
  | fuel + 1, a :: rest => (a :: rest).take 64 :: chunks64F fuel ((a :: rest).drop 64)

/-- Split a list into 64-byte chunks. -/
def chunks64 (l : List Nat) : List (List Nat) := chunks64F l.length l

/-- SHA-256 digest (32 bytes) of a byte list. -/
def sha256 (msg : List Nat) : List Nat :=
  let hs := (chunks64 (sha256Pad msg)).foldl sha256Block sha256H0
  (hs.map (fun w => [(w >>> 24) &&& 0xFF, (w >>> 16) &&& 0xFF, (w >>> 8) &&& 0xFF, w &&& 0xFF])).flatten

/-! ## base64, standard alphabet with canonical padding
(the `BASE64_STANDARD` engine of the Rust `base64` crate) -/

/-- Value of one base64 alphabet character. -/
def b64Val (c : Char) : Option Nat :=
  if 'A' ≤ c ∧ c ≤ 'Z' then some (c.toNat - 65)
  else if 'a' ≤ c ∧ c ≤ 'z' then some (c.toNat - 97 + 26)
  else if '0' ≤ c ∧ c ≤ '9' then some (c.toNat - 48 + 52)
  else if c = '+' then some 62
  else if c = '/' then some 63
  else none

/-- Base64 alphabet character for a 6-bit value. -/
def b64Chr (n : Nat) : Char :=
  if n < 26 then Char.ofNat (65 + n)
  else if n < 52 then Char.ofNat (97 + n - 26)
  else if n < 62 then Char.ofNat (48 + n - 52)
  else if n = 62 then '+' else '/'

/-- Base64 decoding loop over groups of four characters.  The length must be
a multiple of four, padding is canonical and trailing bits must be zero. -/
def b64DecodeLoop : List Char → Option (List Nat)
  | [] => some []
  | c1 :: c2 :: c3 :: c4 :: rest =>
    match b64Val c1, b64Val c2 with
    | some v1, some v2 =>
      if rest = [] ∧ c4 = '=' then
        if c3 = '=' then
          if v2 % 16 = 0 then some [v1 * 4 + v2 / 16] else none
        else
          match b64Val c3 with
          | some v3 =>
            if v3 % 4 = 0 then
              some [v1 * 4 + v2 / 16, (v2 % 16) * 16 + v3 / 4]
            else none
          | none => none
      else
        match b64Val c3, b64Val c4 with
        | some v3, some v4 =>
          (b64DecodeLoop rest).map
            (fun bs => (v1 * 4 + v2 / 16) :: ((v2 % 16) * 16 + v3 / 4) :: ((v3 % 4) * 64 + v4) :: bs)
        | _, _ => none
    | _, _ => none
  | _ => none

/-- `BASE64_STANDARD.decode` of the Rust `base64` crate. -/
def b64Decode (s : String) : Option (List Nat) := b64DecodeLoop s.data

/-- Base64 encoding loop over groups of three bytes. -/
def b64EncodeLoop : List Nat → List Char
  | [] => []
  | [b1] => [b64Chr (b1 / 4), b64Chr (b1 % 4 * 16), '=', '=']
  | [b1, b2] => [b64Chr (b1 / 4), b64Chr (b1 % 4 * 16 + b2 / 16), b64Chr (b2 % 16 * 4), '=']
  | b1 :: b2 :: b3 :: rest =>
    b64Chr (b1 / 4) :: b64Chr (b1 % 4 * 16 + b2 / 16) :: b64Chr (b2 % 16 * 4 + b3 / 64) ::
      b64Chr (b3 % 64) :: b64EncodeLoop rest

/-- `BASE64_STANDARD.encode` of the Rust `base64` crate. -/
def b64Encode (bytes : List Nat) : String := String.mk (b64EncodeLoop bytes)

/-! ## Identifier hasher (`src/lib/hash_migration.rs`) -/

/-- `hash_migration::sha256::get_user_secret`: hex of the first 16 bytes of
SHA-256 of `"secret:" ++ uid`. -/
def get_user_secret (uid : String) : String :=
  hexEncode ((sha256 (strBytes "secret:" ++ strBytes uid)).take 16)

/-- `hash_migration::legacy::get_user_secret`: 8 hex digits of CRC32. -/
def legacy_get_user_secret (uid : String) : String := hex8 (crc32 (strBytes uid))

/-- `hash_migration::sha256::hash_user_id`: `"settings:"` followed by hex of
the first 8 bytes of SHA-256 of the user id. -/
def hash_user_id (uid : String) : String :=
  "settings:" ++ hexEncode ((sha256 (strBytes uid)).take 8)

/-- `hash_migration::legacy::hash_user_id`: `"settings:"` followed by the
decimal CRC32 of the user id. -/
def legacy_hash_user_id (uid : String) : String :=
  "settings:" ++ toString (crc32 (strBytes uid))

/-! ## Checksum, key validation, codec (`src/lib/utils.rs`, `src/lib/constants.rs`) -/

/-- `constants::CHECKSUM_BYTES`. -/
def CHECKSUM_BYTES : Nat := 8

/-- `constants::MAX_KEY_SIZE` (1 MiB per-value cap). -/
def MAX_KEY_SIZE : Nat := 1048576

/-- `constants::MAX_KEY_NAME_LEN`. -/
def MAX_KEY_NAME_LEN : Nat := 256

/-- `constants::DEFAULT_MAX_BACKUP_SIZE` (60 MiB per-user cap). -/
def DEFAULT_MAX_BACKUP_SIZE : Nat := 62914560

/-- `constants::MAX_DECOMPRESSION_SIZE` (10 MiB decompression ceiling). -/
def MAX_DECOMPRESSION_SIZE : Nat := 10485760

/-- `utils::compute_checksum`: hex of the first `CHECKSUM_BYTES` bytes of the
SHA-256 of the data. -/
def compute_checksum (data : List Nat) : String :=
  hexEncode ((sha256 data).take CHECKSUM_BYTES)

/-- `utils::KeyValidationError`. -/
inductive KeyValidationError where
  | Empty
  | TooLong
  | InvalidChars
deriving DecidableEq, Repr

/-- `KeyValidationError::message`. -/
def keyErrorMessage : KeyValidationError → String
  | .Empty => "Key cannot be empty"
  | .TooLong => "Key name exceeds 256 characters"
  | .InvalidChars => "Key contains invalid characters (allowed: alphanumeric, _, -, ., /)"

/-- A byte admitted by `utils::validate_key`: ASCII alphanumeric or one of
`_`, `-`, `.`, `/`. -/
def allowedKeyByte (b : Nat) : Bool :=
  (48 ≤ b && b ≤ 57) || (65 ≤ b && b ≤ 90) || (97 ≤ b && b ≤ 122) ||
    b == 95 || b == 45 || b == 46 || b == 47

/-- `utils::validate_key`; `none` means the key is valid. -/
def validate_key (key : String) : Option KeyValidationError :=
  if key = "" then some .Empty
  else if (strBytes key).length > MAX_KEY_NAME_LEN then some .TooLong
  else if (strBytes key).all allowedKeyByte then none
  else some .InvalidChars

/-- `Config` snapshot: the fields of `utils::Config` the core logic reads,
with their compiled-in defaults. -/
structure Config where
  max_backup_size_bytes : Nat := DEFAULT_MAX_BACKUP_SIZE
  max_key_size_bytes : Nat := MAX_KEY_SIZE
  compression_enabled : Bool := true

/-- The Zstandard frame magic `28 B5 2F FD`. -/
def ZSTD_MAGIC : List Nat := [0x28, 0xB5, 0x2F, 0xFD]

/-- `utils::compress`.  The external zstd encoder is the oracle `zenc`
(`none` models an encoding error). -/
def compress (cfg : Config) (zenc : List Nat → Option (List Nat)) (data : List Nat) : List Nat :=
  if ¬cfg.compression_enabled ∨ data = [] then data
  else
    match zenc data with
    | none => data
    | some out => if out.length < data.length then out else data

/-- `utils::decompress`.  The external zstd decoder is the oracle `zdec`:
`zdec y = some d` models a successful full decode to `d`, `none` a decoding
error.  The Rust code reads at most `MAX_DECOMPRESSION_SIZE + 1` bytes from
the streaming decoder and falls back to the raw input when more than
`MAX_DECOMPRESSION_SIZE` bytes come out, which is the case exactly when the
full decode has length `> MAX_DECOMPRESSION_SIZE`. -/
def decompress (zdec : List Nat → Option (List Nat)) (data : List Nat) : List Nat :=
  if data.length < 4 ∨ data.take 4 ≠ ZSTD_MAGIC then data
  else
    match zdec data with
    | none => data
    | some out => if out.length > MAX_DECOMPRESSION_SIZE then data else out

/-- Rust `str::split(sep)` on a character separator, at the char-list level:
splitting an empty string yields `[""]`, and a trailing separator yields a
trailing empty part. -/
def splitChars (sep : Char) : List Char → List (List Char)
  | [] => [[]]
  | c :: rest =>
    let r := splitChars sep rest
    if c = sep then [] :: r
    else (c :: r.headD []) :: r.tail

/-- Rust `token_str.split(specific char)` returning strings. -/
def splitColon (s : String) : List String :=
  (splitChars ':' s.data).map (fun cs => String.mk cs)

/-- Joining parts back with `:` (used to phrase the split-on-first-colon
reading of the spec). -/
def joinColon : List String → String
  | [] => ""
  | [x] => x
  | x :: rest => x ++ ":" ++ joinColon rest

/-! ## Auth verifier (`src/middleware/auth.rs`) -/

/-- The `auth_middleware` prefix handling: when the header starts with
`"Bearer "` take the bytes from index 7 on, else the whole header. -/
def stripBearer (header : String) : String :=
  match header.data with
  | 'B' :: 'e' :: 'a' :: 'r' :: 'e' :: 'r' :: ' ' :: rest => String.mk rest
  | _ => header

/-- `auth::verify_token`: base64-decode, require UTF-8, split on `:` and
require exactly two parts, then compare the provided secret against the
current and the legacy secret of the claimed user id. -/
def verify_token (token : String) : Option String :=
  match b64Decode token with
  | none => none
  | some bytes =>
    match utf8Decode bytes with
    | none => none
    | some tokenStr =>
      match splitColon tokenStr with
      | [provided, uid] =>
        if provided = get_user_secret uid then some uid
        else if provided = legacy_get_user_secret uid then some uid
        else none
      | _ => none

/-- The full authentication outcome for an `Authorization` header value:
`some uid` iff the request is authenticated as `uid`, `none` meaning 401. -/
def authenticate (header : String) : Option String :=
  verify_token (stripBearer header)

/-- Modelled from the spec's words, for comparison with `authenticate` (claim
C3): strip `"Bearer "`, base64-decode, split the decoded string on the FIRST
`:` into `(provided_secret, user_id)` and accept iff the provided secret
equals the current or the legacy secret of that user id. -/
def authClaimedSpec (header : String) : Option String :=
  match b64Decode (stripBearer header) with
  | none => none
  | some bytes =>
    match utf8Decode bytes with
    | none => none
    | some tokenStr =>
      match splitColon tokenStr with
      | [] => none
      | [_] => none
      | provided :: restParts =>
        let uid := joinColon restParts
        if provided = get_user_secret uid ∨ provided = legacy_get_user_secret uid then
          some uid
        else none

/-- The amended claim C3 as a predicate: authentication succeeds with user id
`uid` iff stripping the optional `"Bearer "` prefix, base64-decoding and
UTF-8-decoding yields a token string whose split on `:` has EXACTLY two
parts `(provided, uid)` and the provided secret is byte-equal to the current
or the legacy secret of `uid`. -/
def authAmendedSpec (header uid : String) : Prop :=
  ∃ bytes tokenStr provided,
    b64Decode (stripBearer header) = some bytes ∧
    utf8Decode bytes = some tokenStr ∧
    splitColon tokenStr = [provided, uid] ∧
    (provided = get_user_secret uid ∨ provided = legacy_get_user_secret uid)

end Equicloud

namespace Equicloud

/-! ## Generic keyed rows

Both tables are keyed by a single string column; point lookups, upserts and
deletes are shared. -/

/-- Point lookup: the first row whose key is `k`. -/
def keyedFind {α : Type} (keyf : α → String) (st : List α) (k : String) : Option α :=
  st.find? (fun x => keyf x == k)

/-- CQL `INSERT` semantics: replace the row with the same key, else append. -/
def keyedUpsert {α : Type} (keyf : α → String) (st : List α) (r : α) : List α :=
  if st.any (fun x => keyf x == keyf r) then
    st.map (fun x => if keyf x == keyf r then r else x)
  else st ++ [r]

/-- CQL `DELETE` semantics: drop every row with key `k`. -/
def keyedDelete {α : Type} (keyf : α → String) (st : List α) (k : String) : List α :=
  st.filter (fun x => keyf x != k)

/-! ## The `users` table (settings) -/

/-- One row of the `users` table. -/
structure UserRow where
  id : String
  settings : List Nat
  created_at : Int
  updated_at : Int
deriving DecidableEq, Repr

/-- The `users` table restricted to the rows a request can touch. -/
abbrev UserStore := List UserRow

/-- Point lookup by primary key (`SELECT ... WHERE id = ?`). -/
def lookupUser (st : UserStore) (k : String) : Option UserRow :=
  keyedFind (fun r => r.id) st k

/-- CQL `INSERT` is an upsert by primary key. -/
def upsertUser (st : UserStore) (r : UserRow) : UserStore :=
  keyedUpsert (fun x => x.id) st r

/-- `DELETE FROM users WHERE id = ?`. -/
def deleteUser (st : UserStore) (k : String) : UserStore :=
  keyedDelete (fun r => r.id) st k

/-! ### The wired `/v1/settings` handlers (`src/routes/v1/settings.rs`)

These are the functions the router actually dispatches to.  Each one opens
its own session and addresses the row at `"settings:" ++ decimal(crc32 uid)`
— the LEGACY key — with plain point queries; no other key is consulted and
no migration or cleanup statement is ever issued, so the store passes
through reads unchanged. -/

/-- The local `get_user_settings` of `src/routes/v1/settings.rs` (the one the
`GET /v1/settings` route calls): a single `SELECT settings, updated_at` at
the CRC32 legacy key.  Returns the result and the (unchanged) store. -/
def route_get_user_settings (uid : String) (st : UserStore) :
    Option (List Nat × String) × UserStore :=
  ((lookupUser st (legacy_hash_user_id uid)).map
    (fun r => (r.settings, toString r.updated_at)), st)

/-- The local `save_user_settings` of `src/routes/v1/settings.rs` (the one
`PUT /v1/settings` calls): a single `INSERT` at the CRC32 legacy key with
`created_at = updated_at = now`; returns the written timestamp. -/
def route_save_user_settings (uid : String) (body : List Nat) (now : Int)
    (st : UserStore) : UserStore × Int :=
  (upsertUser st ⟨legacy_hash_user_id uid, body, now, now⟩, now)

/-- The local `delete_user_settings` of `src/routes/v1/settings.rs` (the one
`DELETE /v1/settings` calls): a single `DELETE` at the CRC32 legacy key. -/
def route_delete_user_settings (uid : String) (st : UserStore) : UserStore :=
  deleteUser st (legacy_hash_user_id uid)

/-! ### The `DatabaseService` settings operations (`src/lib/database.rs`)

These implement the migration protocol of the spec.  A fallible migration
step is modelled by an explicit fault point: each CQL statement of
`migrate_user_data` can fail, aborting the remainder. -/

/-- Where `DatabaseService::migrate_user_data` fails, if anywhere: at the
`created_at` read, at the insert under the new key, or at the legacy
delete. -/
inductive MigrationFault where
  | ok
  | atRead
  | atInsert
  | atDelete
deriving DecidableEq, Repr

/-- `DatabaseService::migrate_user_data`: re-read the legacy row's
`created_at` (falling back to `updated_at` when the row is gone), upsert the
row under the new key with the legacy settings and timestamps, then delete
the legacy row.  Returns the store and whether the migration succeeded. -/
def db_migrate_user_data (fault : MigrationFault) (legacyKey newKey : String)
    (settings : List Nat) (updated_at : Int) (st : UserStore) : UserStore × Bool :=
  match fault with
  | .atRead => (st, false)
  | .atInsert => (st, false)
  | .atDelete =>
    let created_at := ((lookupUser st legacyKey).map (fun r => r.created_at)).getD updated_at
    (upsertUser st ⟨newKey, settings, created_at, updated_at⟩, false)
  | .ok =>
    let created_at := ((lookupUser st legacyKey).map (fun r => r.created_at)).getD updated_at
    (deleteUser (upsertUser st ⟨newKey, settings, created_at, updated_at⟩) legacyKey, true)

/-- `DatabaseService::get_user_settings`: look up the SHA-256 key; on miss,
look up the CRC32 legacy key when it differs, migrate on hit (failures
logged, not surfaced) and return the legacy value either way. -/
def db_get_user_settings (fault : MigrationFault) (uid : String) (st : UserStore) :
    Option (List Nat × String) × UserStore :=
  let hashKey := hash_user_id uid
  match lookupUser st hashKey with
  | some r => (some (r.settings, toString r.updated_at), st)
  | none =>
    let legacyKey := legacy_hash_user_id uid
    if legacyKey = hashKey then (none, st)
    else
      match lookupUser st legacyKey with
      | some r =>
        let res := db_migrate_user_data fault legacyKey hashKey r.settings r.updated_at st
        (some (r.settings, toString r.updated_at), res.1)
      | none => (none, st)

/-- `DatabaseService::save_user_settings`: upsert under the SHA-256 key with
`created_at = updated_at = now`, then opportunistically delete the legacy
key when it differs (`cleanup_legacy_data`; a failed delete is swallowed,
modelled by `cleanupFails`). -/
def db_save_user_settings (cleanupFails : Bool) (uid : String) (settings : List Nat)
    (now : Int) (st : UserStore) : UserStore × Int :=
  let hashKey := hash_user_id uid
  let st1 := upsertUser st ⟨hashKey, settings, now, now⟩
  let legacyKey := legacy_hash_user_id uid
  let st2 := if legacyKey ≠ hashKey ∧ ¬cleanupFails then deleteUser st1 legacyKey else st1
  (st2, now)

/-- `DatabaseService::delete_user_settings`: delete the SHA-256 key, then
opportunistically delete the legacy key when it differs. -/
def db_delete_user_settings (cleanupFails : Bool) (uid : String) (st : UserStore) : UserStore :=
  let hashKey := hash_user_id uid
  let st1 := deleteUser st hashKey
  let legacyKey := legacy_hash_user_id uid
  if legacyKey ≠ hashKey ∧ ¬cleanupFails then deleteUser st1 legacyKey else st1

/-! ## The `data` table -/

/-- One stored row of the `data` table for a fixed user (`value` holds the
stored — possibly compressed — bytes). -/
structure DataRow where
  key : String
  value : List Nat
  version : Int
  checksum : String
  size_bytes : Int
  created_at : Int
  updated_at : Int
deriving DecidableEq, Repr

/-- The `data` rows of one user. -/
abbrev DataStore := List DataRow

/-- Point lookup by primary key (`WHERE user_id = ? AND key = ?`). -/
def lookupRow (st : DataStore) (k : String) : Option DataRow :=
  keyedFind (fun r => r.key) st k

/-- CQL `INSERT` into `data` is an upsert by primary key. -/
def upsertRow (st : DataStore) (r : DataRow) : DataStore :=
  keyedUpsert (fun x => x.key) st r

/-- `DataManifestEntry` (`src/lib/database.rs`): a row minus its value. -/
structure DataManifestEntry where
  key : String
  version : Int
  checksum : String
  size_bytes : Int
  updated_at : Int
deriving DecidableEq, Repr

/-- A decompressed `DataEntry` as returned by reads. -/
structure DataEntry where
  key : String
  value : List Nat
  version : Int
  checksum : String
  size_bytes : Int
  created_at : Int
  updated_at : Int
deriving DecidableEq, Repr

/-- `DatabaseService::get_data_manifest`: all rows without values. -/
def get_data_manifest (st : DataStore) : List DataManifestEntry :=
  st.map (fun r => ⟨r.key, r.version, r.checksum, r.size_bytes, r.updated_at⟩)

/-- `DatabaseService::get_data_keys`: concurrent point reads in key order,
missing keys silently omitted, values decompressed. -/
def get_data_keys (zdec : List Nat → Option (List Nat)) (st : DataStore)
    (keys : List String) : List DataEntry :=
  keys.filterMap (fun k =>
    (lookupRow st k).map (fun r =>
      ⟨r.key, decompress zdec r.value, r.version, r.checksum, r.size_bytes,
       r.created_at, r.updated_at⟩))

/-- Sum of `size_bytes` over a user's rows
(`SELECT SUM(size_bytes) FROM data WHERE user_id = ?`). -/
def sumSizes (st : DataStore) : Int := (st.map (fun r => r.size_bytes)).sum

/-- `DatabaseService::save_data_key`: validate, enforce the per-value cap,
read `(version, created_at)`, upsert with `version + 1` (or `1` on first
write, with `created_at = now`), and return `(version, now)`. -/
def save_data_key (cfg : Config) (zenc : List Nat → Option (List Nat)) (now : Int)
    (st : DataStore) (key : String) (value : List Nat) (checksum : String) :
    Except String (DataStore × Int × Int) :=
  match validate_key key with
  | some e => .error (keyErrorMessage e)
  | none =>
    if value.length > cfg.max_key_size_bytes then .error "Value exceeds 1MB limit"
    else
      let vc : Int × Int :=
        match lookupRow st key with
        | some r => (r.version + 1, r.created_at)
        | none => (1, now)
      .ok (upsertRow st ⟨key, compress cfg zenc value, vc.1, checksum,
            (value.length : Int), vc.2, now⟩, vc.1, now)

/-- `DatabaseService::save_data_key_with_quota_check`: additionally fetches
the user's total size and the existing row's size, and refuses to write
when `total - existing + new > max_total_size`.  `none` in the result is the
quota-exceeded outcome; the store is returned alongside (unchanged in that
case). -/
def save_data_key_with_quota_check (cfg : Config) (zenc : List Nat → Option (List Nat))
    (now : Int) (st : DataStore) (key : String) (value : List Nat) (checksum : String)
    (max_total_size : Int) : Except String (DataStore × Option (Int × Int)) :=
  match validate_key key with
  | some e => .error (keyErrorMessage e)
  | none =>
    if value.length > cfg.max_key_size_bytes then .error "Value exceeds 1MB limit"
    else
      let total_size := sumSizes st
      let vcs : Int × Int × Int :=
        match lookupRow st key with
        | some r => (r.version + 1, r.created_at, r.size_bytes)
        | none => (1, now, 0)
      let new_total := total_size - vcs.2.2 + (value.length : Int)
      if new_total > max_total_size then .ok (st, none)
      else
        .ok (upsertRow st ⟨key, compress cfg zenc value, vcs.1, checksum,
              (value.length : Int), vcs.2.1, now⟩, some (vcs.1, now))

/-- Insertion-ordered association map used to model a Rust `HashMap` built by
repeated `insert` (a later insert for the same key overwrites). -/
def mapInsert {α : Type} (m : List (String × α)) (k : String) (v : α) : List (String × α) :=
  keyedUpsert (fun p => p.1) m (k, v)

/-- Lookup in an insertion-ordered association map. -/
def mapGet {α : Type} (m : List (String × α)) (k : String) : Option α :=
  (keyedFind (fun p => p.1) m k).map (fun p => p.2)

/-- `HashMap` built by `collect()` from an iterator: a LATER duplicate of a
key overwrites an earlier one, so lookup takes the last matching element. -/
def lookupLastServer (sm : List DataManifestEntry) (k : String) : Option DataManifestEntry :=
  keyedFind (fun e => e.key) sm.reverse k

/-- `DatabaseService::get_versions_batch`: concurrent `(version, created_at)`
reads for the requested keys, collected into a map; missing keys omitted. -/
def get_versions_batch (st : DataStore) (keys : List String) : List (String × Int × Int) :=
  keys.foldl (fun m k =>
    match lookupRow st k with
    | some r => mapInsert m k (r.version, r.created_at)
    | none => m) []

/-- `DatabaseService::save_data_keys_batch`: silently filter oversize values,
precompute `(version, created_at)` per entry from the supplied map (absent
means first write), compress, and issue the upserts (their concurrent
completion is modelled as an in-order fold).  Returns the new store and the
`(key, version, now)` results. -/
def save_data_keys_batch (cfg : Config) (zenc : List Nat → Option (List Nat)) (now : Int)
    (st : DataStore) (entries : List (String × List Nat × String))
    (existing_versions : List (String × Int × Int)) :
    DataStore × List (String × Int × Int) :=
  let prepared := entries.filterMap (fun e =>
    if e.2.1.length > cfg.max_key_size_bytes then none
    else
      let vc : Int × Int :=
        match mapGet existing_versions e.1 with
        | some p => (p.1 + 1, p.2)
        | none => (1, now)
      some (e.1, compress cfg zenc e.2.1, e.2.2, (e.2.1.length : Int), vc.1, vc.2))
  let store := prepared.foldl (fun s p =>
    upsertRow s ⟨p.1, p.2.1, p.2.2.2.2.1, p.2.2.1, p.2.2.2.1, p.2.2.2.2.2, now⟩) st
  (store, prepared.map (fun p => (p.1, p.2.2.2.2.1, now)))

end Equicloud

namespace Equicloud

/-! ## Delta-sync engine (`src/routes/v2/sync.rs`) -/

/-- `ClientManifestEntry` of the sync request. -/
structure ClientManifestEntry where
  key : String
  version : Int
  checksum : String
deriving DecidableEq, Repr

/-- `UploadEntry` of the sync request (value already base64-decoded). -/
structure UploadEntry where
  key : String
  value : List Nat
  checksum : String
deriving DecidableEq, Repr

/-- `SyncError` of the sync response. -/
structure SyncError where
  key : String
  error : String
deriving DecidableEq, Repr

/-- `UploadResult` of the sync response. -/
structure UploadResult where
  key : String
  version : Int
  checksum : String
deriving DecidableEq, Repr

/-- `DownloadEntry` of the sync response. -/
structure DownloadEntry where
  key : String
  value : List Nat
  version : Int
  checksum : String
deriving DecidableEq, Repr

/-- `SyncResponse`. -/
structure SyncResponse where
  server_manifest : List DataManifestEntry
  downloads : List DownloadEntry
  uploaded : List UploadResult
  errors : List SyncError
deriving DecidableEq, Repr

/-- The `client_map` lookup (`HashMap` collected from the client manifest:
a later duplicate key overwrites an earlier one). -/
def lookupLastClient (cm : List ClientManifestEntry) (k : String) : Option ClientManifestEntry :=
  keyedFind (fun e => e.key) cm.reverse k

/-- The download filter of `delta_sync`: a server manifest entry is kept
unless the client holds the key with `version ≥` the server's and an equal
checksum. -/
def keysToDownload (sm : List DataManifestEntry) (cm : List ClientManifestEntry) :
    List String :=
  (sm.filter (fun s =>
    !((lookupLastClient cm s.key).elim false
        (fun c => decide (c.version ≥ s.version) && (c.checksum == s.checksum))))).map
    (fun s => s.key)

/-- The upload-admission accumulator of the `delta_sync` upload loop. -/
structure AdmitState where
  errors : List SyncError
  valid_uploads : List (String × List Nat × String)
  keys_to_check : List String
  running_size : Int
deriving Repr

/-- One iteration of the upload loop of `delta_sync`: key validation, the
per-value cap, the checksum check, the dominance filter, then the
provisional quota check; an admitted upload commits the new running size. -/
def admitStep (cfg : Config) (sm : List DataManifestEntry) (cm : List ClientManifestEntry)
    (acc : AdmitState) (u : UploadEntry) : AdmitState :=
  match validate_key u.key with
  | some e => { acc with errors := acc.errors ++ [⟨u.key, keyErrorMessage e⟩] }
  | none =>
    if u.value.length > cfg.max_key_size_bytes then
      { acc with errors := acc.errors ++ [⟨u.key, "Value exceeds 1MB limit"⟩] }
    else if compute_checksum u.value ≠ u.checksum then
      { acc with errors := acc.errors ++ [⟨u.key, "Checksum mismatch"⟩] }
    else
      let dominated :=
        (lookupLastServer sm u.key).elim false (fun s =>
          (lookupLastClient cm u.key).elim true (fun c => decide (c.version ≤ s.version)))
      if dominated then acc
      else
        let existing_size := ((lookupLastServer sm u.key).map (fun s => s.size_bytes)).getD 0
        let new_running := acc.running_size - existing_size + (u.value.length : Int)
        if new_running > (cfg.max_backup_size_bytes : Int) then
          { acc with errors := acc.errors ++ [⟨u.key, "Total storage limit exceeded"⟩] }
        else
          { acc with
            running_size := new_running
            keys_to_check := acc.keys_to_check ++ [u.key]
            valid_uploads := acc.valid_uploads ++ [(u.key, u.value, u.checksum)] }

/-- The admission loop over all uploads, starting from the summed server
manifest size. -/
def admitUploads (cfg : Config) (sm : List DataManifestEntry)
    (cm : List ClientManifestEntry) (uploads : List UploadEntry) : AdmitState :=
  uploads.foldl (admitStep cfg sm cm)
    ⟨[], [], [], (sm.map (fun e => e.size_bytes)).sum⟩

/-- The post-upload manifest projection of `delta_sync` (step 5): rows of
successfully uploaded keys are overwritten with the new version, checksum,
size and `updated_at = now`; new keys are appended. -/
def projectManifest (sm : List DataManifestEntry)
    (updated : List (String × Int × String × Int)) (now : Int) : List DataManifestEntry :=
  if updated = [] then sm
  else
    (sm.map (fun e =>
      match mapGet updated e.key with
      | some p => { e with version := p.1, checksum := p.2.1, size_bytes := p.2.2, updated_at := now }
      | none => e)) ++
    ((updated.filter (fun p => !(sm.any (fun e => e.key == p.1)))).map
      (fun p => ⟨p.1, p.2.1, p.2.2.1, p.2.2.2, now⟩))

/-- `delta_sync` on its success path (the storage statements succeed): load
the server manifest, select and fetch the downloads, admit the uploads,
persist them via `get_versions_batch` and `save_data_keys_batch`, and
project the response manifest.  Returns the response and the store as left
by the persisted upserts. -/
def delta_sync (cfg : Config) (zenc zdec : List Nat → Option (List Nat)) (now : Int)
    (st : DataStore) (cm : List ClientManifestEntry) (uploads : List UploadEntry) :
    SyncResponse × DataStore :=
  let sm := get_data_manifest st
  let dlKeys := keysToDownload sm cm
  let downloads := (get_data_keys zdec st dlKeys).map
    (fun e => DownloadEntry.mk e.key e.value e.version e.checksum)
  let a := admitUploads cfg sm cm uploads
  if a.valid_uploads = [] then
    (⟨sm, downloads, [], a.errors⟩, st)
  else
    let upload_info := a.valid_uploads.foldl
      (fun m v => mapInsert m v.1 (v.2.2, (v.2.1.length : Int))) []
    let existing_versions := get_versions_batch st a.keys_to_check
    let res := save_data_keys_batch cfg zenc now st a.valid_uploads existing_versions
    let uploaded := res.2.filterMap (fun s =>
      (mapGet upload_info s.1).map (fun info => UploadResult.mk s.1 s.2.1 info.1))
    let updated := res.2.foldl (fun m s =>
      match mapGet upload_info s.1 with
      | some info => mapInsert m s.1 (s.2.1, info.1, info.2)
      | none => m) []
    (⟨projectManifest sm updated now, downloads, uploaded, a.errors⟩, res.1)

end Equicloud

namespace Equicloud

/-! ## Association-list lemmas -/

variable {α : Type}

theorem keyedFind_replace (keyf : α → String) (r : α) (tl : List α)
    (hex : ∃ x ∈ tl, keyf x = keyf r) :
    List.find? (fun x => keyf x == keyf r)
      (tl.map (fun x => if keyf x == keyf r then r else x)) = some r := by
  induction tl with
  | nil => simp at hex
  | cons a t ih =>
    by_cases ha : keyf a = keyf r
    · simp [List.find?_cons, ha]
    · have hb : (keyf a == keyf r) = false := by simp [ha]
      simp only [List.map_cons, hb, Bool.false_eq_true, if_false, List.find?_cons, hb]
      apply ih
      rcases hex with ⟨x, hx, hkx⟩
      rcases List.mem_cons.mp hx with rfl | hmem
      · exact absurd hkx ha
      · exact ⟨x, hmem, hkx⟩

theorem keyedFind_replace_other (keyf : α → String) (r : α) (tl : List α) (k : String)
    (h : k ≠ keyf r) :
    List.find? (fun x => keyf x == k)
      (tl.map (fun x => if keyf x == keyf r then r else x)) =
      List.find? (fun x => keyf x == k) tl := by
  induction tl with
  | nil => simp
  | cons a t ih =>
    by_cases ha : keyf a = keyf r
    · have hb : (keyf a == keyf r) = true := by simp [ha]
      have hrk : (keyf r == k) = false := by simp; exact fun e => h (Eq.symm e)
      have hak : (keyf a == k) = false := by simp [ha]; exact fun e => h (Eq.symm e)
      simp only [List.map_cons, hb, if_true, List.find?_cons, hrk, hak, ih]
    · have hb : (keyf a == keyf r) = false := by simp [ha]
      simp only [List.map_cons, hb, Bool.false_eq_true, if_false, List.find?_cons]
      cases hak : (keyf a == k) with
      | true => rfl
      | false => exact ih

theorem keyedFind_upsert_self (keyf : α → String) (st : List α) (r : α) :
    keyedFind keyf (keyedUpsert keyf st r) (keyf r) = some r := by
  unfold keyedUpsert keyedFind
  split
  · rename_i h
    rw [List.any_eq_true] at h
    exact keyedFind_replace keyf r st (by
      rcases h with ⟨x, hx, hkx⟩; exact ⟨x, hx, by simpa using hkx⟩)
  · rename_i h
    rw [List.find?_append]
    have hnone : List.find? (fun x => keyf x == keyf r) st = none := by
      rw [List.find?_eq_none]
      intro x hx hpx
      exact h (List.any_eq_true.mpr ⟨x, hx, hpx⟩)
    simp [hnone, List.find?_cons]

theorem keyedFind_upsert_other (keyf : α → String) (st : List α) (r : α) (k : String)
    (h : k ≠ keyf r) : keyedFind keyf (keyedUpsert keyf st r) k = keyedFind keyf st k := by
  unfold keyedUpsert keyedFind
  split
  · exact keyedFind_replace_other keyf r st k h
  · rw [List.find?_append]
    have hrk : (keyf r == k) = false := by
      simp only [beq_eq_false_iff_ne, ne_eq]
      exact fun e => h (Eq.symm e)
    have : List.find? (fun x => keyf x == k) [r] = none := by
      simp [List.find?_cons, hrk]
    rw [this]
    cases List.find? (fun x => keyf x == k) st <;> rfl

theorem keyedFind_delete_self (keyf : α → String) (st : List α) (k : String) :
    keyedFind keyf (keyedDelete keyf st k) k = none := by
  unfold keyedDelete keyedFind
  rw [List.find?_eq_none]
  intro x hx
  have := (List.mem_filter.mp hx).2
  simpa using this

theorem keyedFind_delete_other (keyf : α → String) (st : List α) (k k0 : String)
    (h : k ≠ k0) : keyedFind keyf (keyedDelete keyf st k0) k = keyedFind keyf st k := by
  unfold keyedDelete keyedFind
  induction st with
  | nil => simp
  | cons a tl ih =>
    by_cases hak : keyf a = k
    · have h1 : (keyf a != k0) = true := by simp [bne_iff_ne, hak]; exact h
      have h2 : (keyf a == k) = true := by simp [hak]
      simp [List.filter_cons, h1, List.find?_cons, h2]
    · have h2 : (keyf a == k) = false := by simp [hak]
      by_cases hak0 : keyf a = k0
      · have h1 : (keyf a != k0) = false := by simp [bne_iff_ne, hak0]
        simp [List.filter_cons, h1, List.find?_cons, h2, ih]
      · have h1 : (keyf a != k0) = true := by simp [bne_iff_ne]; exact hak0
        simp [List.filter_cons, h1, List.find?_cons, h2, ih]

theorem keyedFind_mem (keyf : α → String) (st : List α) (k : String) (r : α)
    (h : keyedFind keyf st k = some r) : r ∈ st ∧ keyf r = k := by
  unfold keyedFind at h
  exact ⟨List.mem_of_find?_eq_some h, by simpa using List.find?_some h⟩

theorem keyedFind_nodup_mem (keyf : α → String) (st : List α)
    (hnd : (st.map keyf).Nodup) (x : α) (hx : x ∈ st) :
    keyedFind keyf st (keyf x) = some x := by
  unfold keyedFind
  induction st with
  | nil => simp at hx
  | cons a tl ih =>
    rw [List.map_cons, List.nodup_cons] at hnd
    rcases List.mem_cons.mp hx with rfl | hmem
    · simp [List.find?_cons]
    · have hne : (keyf a == keyf x) = false := by
        simp only [beq_eq_false_iff_ne, ne_eq]
        intro e
        exact hnd.1 (e ▸ List.mem_map.mpr ⟨x, hmem, rfl⟩)
      simp only [List.find?_cons, hne]
      exact ih hnd.2 hmem

theorem keyedFind_reverse_nodup (keyf : α → String) (st : List α)
    (hnd : (st.map keyf).Nodup) (k : String) :
    keyedFind keyf st.reverse k = keyedFind keyf st k := by
  cases hf : keyedFind keyf st k with
  | none =>
    unfold keyedFind at hf ⊢
    rw [List.find?_eq_none] at hf ⊢
    intro x hx
    exact hf x (List.mem_reverse.mp hx)
  | some r =>
    obtain ⟨hmem, hkey⟩ := keyedFind_mem keyf st k r hf
    have hnd2 : (st.reverse.map keyf).Nodup := by
      rw [List.map_reverse]
      exact List.nodup_reverse.mpr hnd
    have hres := keyedFind_nodup_mem keyf st.reverse hnd2 r (List.mem_reverse.mpr hmem)
    rw [hkey] at hres
    exact hres

end Equicloud

namespace Equicloud

/-! ### Specializations to the two tables and the map model -/

theorem lookupUser_upsert_self (st : UserStore) (r : UserRow) :
    lookupUser (upsertUser st r) r.id = some r := by
  unfold lookupUser upsertUser
  exact keyedFind_upsert_self (fun x => x.id) st r

theorem lookupUser_upsert_other (st : UserStore) (r : UserRow) (k : String)
    (h : k ≠ r.id) : lookupUser (upsertUser st r) k = lookupUser st k := by
  unfold lookupUser upsertUser
  exact keyedFind_upsert_other (fun x => x.id) st r k h

theorem lookupUser_delete_self (st : UserStore) (k : String) :
    lookupUser (deleteUser st k) k = none := by
  unfold lookupUser deleteUser
  exact keyedFind_delete_self (fun x => x.id) st k

theorem lookupUser_delete_other (st : UserStore) (k k0 : String) (h : k ≠ k0) :
    lookupUser (deleteUser st k0) k = lookupUser st k := by
  unfold lookupUser deleteUser
  exact keyedFind_delete_other (fun x => x.id) st k k0 h

theorem lookupRow_upsert_self (st : DataStore) (r : DataRow) :
    lookupRow (upsertRow st r) r.key = some r := by
  unfold lookupRow upsertRow
  exact keyedFind_upsert_self (fun x => x.key) st r

theorem lookupRow_upsert_other (st : DataStore) (r : DataRow) (k : String)
    (h : k ≠ r.key) : lookupRow (upsertRow st r) k = lookupRow st k := by
  unfold lookupRow upsertRow
  exact keyedFind_upsert_other (fun x => x.key) st r k h

theorem mapGet_insert_self {α : Type} (m : List (String × α)) (k : String) (v : α) :
    mapGet (mapInsert m k v) k = some v := by
  unfold mapGet mapInsert
  rw [keyedFind_upsert_self (fun p : String × α => p.1) m (k, v)]
  rfl

theorem mapGet_insert_other {α : Type} (m : List (String × α)) (k : String) (v : α)
    (k0 : String) (h : k0 ≠ k) : mapGet (mapInsert m k v) k0 = mapGet m k0 := by
  unfold mapGet mapInsert
  rw [keyedFind_upsert_other (fun p : String × α => p.1) m (k, v) k0 h]

end Equicloud

namespace Equicloud

/-- C9: for every byte sequence `y` and every behaviour of the zstd decoder,
`decompress` returns `y` unchanged when `y` is shorter than 4 bytes or its
first 4 bytes differ from the Zstandard magic; otherwise it returns `y` when
decoding fails or the decoded output would exceed the 10485760-byte ceiling,
and the decoded value (of at most 10485760 bytes) when it does not — so the
result is always either `y` itself or a decoded value of at most 10 MiB. -/
theorem decompress_spec (zdec : List Nat → Option (List Nat)) (y : List Nat) :
    (y.length < 4 ∨ y.take 4 ≠ ZSTD_MAGIC → decompress zdec y = y) ∧
    (¬(y.length < 4 ∨ y.take 4 ≠ ZSTD_MAGIC) →
      (zdec y = none → decompress zdec y = y) ∧
      (∀ d, zdec y = some d → d.length > MAX_DECOMPRESSION_SIZE → decompress zdec y = y) ∧
      (∀ d, zdec y = some d → d.length ≤ MAX_DECOMPRESSION_SIZE → decompress zdec y = d)) ∧
    (decompress zdec y = y ∨ (decompress zdec y).length ≤ MAX_DECOMPRESSION_SIZE) := by
  unfold decompress
  by_cases hc : y.length < 4 ∨ y.take 4 ≠ ZSTD_MAGIC
  · simp [hc]
  · simp only [hc, if_false]
    cases hz : zdec y with
    | none => simp
    | some d =>
      by_cases hd : d.length > MAX_DECOMPRESSION_SIZE
      · simp [hd]
      · simp [hd]
        omega

/-- C7: for a quota-checked put of a valid key and a value within the
per-value cap: with `total` the user's current sum of `size_bytes`,
`existing` the stored size of the key (0 if absent) and
`new_total = total - existing + len(value)`, if `new_total > max_total_bytes`
the operation returns the quota-exceeded outcome (`none`) and leaves the
store unchanged; otherwise it upserts the row (version bumped, `created_at`
preserved) and returns `(version, updated_at)`. -/
theorem quota_checked_put_spec (cfg : Config) (zenc : List Nat → Option (List Nat))
    (now : Int) (st : DataStore) (key : String) (value : List Nat) (checksum : String)
    (maxTotal : Int)
    (hv : validate_key key = none) (hlen : value.length ≤ cfg.max_key_size_bytes) :
    (sumSizes st - (((lookupRow st key).map (fun r => r.size_bytes)).getD 0) +
        (value.length : Int) > maxTotal →
      save_data_key_with_quota_check cfg zenc now st key value checksum maxTotal =
        .ok (st, none)) ∧
    (sumSizes st - (((lookupRow st key).map (fun r => r.size_bytes)).getD 0) +
        (value.length : Int) ≤ maxTotal →
      save_data_key_with_quota_check cfg zenc now st key value checksum maxTotal =
        .ok (upsertRow st ⟨key, compress cfg zenc value,
              ((lookupRow st key).map (fun r => r.version + 1)).getD 1, checksum,
              (value.length : Int),
              ((lookupRow st key).map (fun r => r.created_at)).getD now, now⟩,
            some (((lookupRow st key).map (fun r => r.version + 1)).getD 1, now))) := by
  unfold save_data_key_with_quota_check
  rw [hv]
  have hnl : ¬(value.length > cfg.max_key_size_bytes) := not_lt.mpr hlen
  simp only [if_neg hnl]
  cases hrow : lookupRow st key with
  | none =>
    simp only [hrow, Option.map_none, Option.getD_none]
    constructor
    · intro hgt
      rw [if_pos (by simpa using hgt)]
    · intro hle
      rw [if_neg (by simpa using not_lt.mpr hle)]
      rfl
  | some r =>
    simp only [hrow, Option.map_some, Option.getD_some]
    constructor
    · intro hgt
      rw [if_pos (by simpa using hgt)]
    · intro hle
      rw [if_neg (by simpa using not_lt.mpr hle)]
      rfl

/-- Witness for C7: a concrete quota-admitted put on an empty store. -/
theorem quota_checked_put_spec_witness :
    save_data_key_with_quota_check {} (fun _ => none) 5 [] "a" [1, 2] "x" 100 =
      .ok ([⟨"a", [1, 2], 1, "x", 2, 5, 5⟩], some (1, 5)) := by
  have h := (quota_checked_put_spec {} (fun _ => none) 5 [] "a" [1, 2] "x" 100
    (by decide) (by decide)).2 (by decide)
  rw [h]
  rfl

/-- C1 (code bug): the wired `GET /v1/settings` handler
(`routes/v1/settings.rs`), evaluated on a user whose row exists only under
the legacy CRC32 key, returns the legacy settings value but leaves the store
untouched: no row is created under the SHA-256 key and the legacy row is not
deleted — the migration the spec (and `DatabaseService::get_user_settings`,
last two conjuncts) prescribes never runs on the routed path. -/
theorem settings_get_no_migration_bug :
    route_get_user_settings "42" [⟨legacy_hash_user_id "42", [88], 100, 200⟩] =
      (some ([88], "200"), [⟨legacy_hash_user_id "42", [88], 100, 200⟩]) ∧
    lookupUser [⟨legacy_hash_user_id "42", [88], 100, 200⟩] (hash_user_id "42") = none ∧
    legacy_hash_user_id "42" ≠ hash_user_id "42" ∧
    (db_get_user_settings .ok "42" [⟨legacy_hash_user_id "42", [88], 100, 200⟩]).1 =
      some ([88], "200") ∧
    (db_get_user_settings .ok "42" [⟨legacy_hash_user_id "42", [88], 100, 200⟩]).2 =
      [⟨hash_user_id "42", [88], 100, 200⟩] := by
  decide

/-- C2 (code bug): the wired `PUT /v1/settings` handler writes the blob
UNDER the legacy CRC32 key and performs no legacy cleanup: after a
successful put for user "42" (legacy key ≠ current key) the legacy-key row
exists, and when a current-key row already existed both rows coexist —
violating the claimed invariant.  The unwired
`DatabaseService::save_user_settings` (last conjunct) implements the claimed
behaviour: it writes the current key and deletes the legacy row. -/
theorem settings_put_no_cleanup_bug :
    route_save_user_settings "42" [1] 300 [⟨hash_user_id "42", [88], 100, 200⟩] =
      ([⟨hash_user_id "42", [88], 100, 200⟩, ⟨legacy_hash_user_id "42", [1], 300, 300⟩], 300) ∧
    (lookupUser (route_save_user_settings "42" [1] 300
        [⟨hash_user_id "42", [88], 100, 200⟩]).1 (legacy_hash_user_id "42")).isSome = true ∧
    (lookupUser (route_save_user_settings "42" [1] 300
        [⟨hash_user_id "42", [88], 100, 200⟩]).1 (hash_user_id "42")).isSome = true ∧
    legacy_hash_user_id "42" ≠ hash_user_id "42" ∧
    db_save_user_settings false "42" [1] 300 [⟨hash_user_id "42", [88], 100, 200⟩] =
      ([⟨hash_user_id "42", [1], 300, 300⟩], 300) := by
  decide

/-- C3 counterexample: for user id `"a:b"` (which contains a colon) and the
correct legacy secret, the claim's split-on-the-FIRST-colon reading accepts
the token, but `verify_token` requires the split to have exactly two parts
and rejects it with 401. -/
theorem auth_first_colon_counterexample :
    authenticate (b64Encode (strBytes (legacy_get_user_secret "a:b" ++ ":a:b"))) = none ∧
    authClaimedSpec (b64Encode (strBytes (legacy_get_user_secret "a:b" ++ ":a:b"))) =
      some "a:b" := by
  decide

end Equicloud

namespace Equicloud

/-- Witness for C9: a non-magic input passes through; a magic-prefixed input
decodes to the oracle's output when within the ceiling. -/
theorem decompress_spec_witness :
    decompress (fun _ => none) [1, 2, 3] = [1, 2, 3] ∧
    decompress (fun _ => some [9]) [0x28, 0xB5, 0x2F, 0xFD] = [9] :=
  ⟨(decompress_spec (fun _ => none) [1, 2, 3]).1 (by decide),
   ((decompress_spec (fun _ => some [9]) [0x28, 0xB5, 0x2F, 0xFD]).2.1
      (by decide)).2.2 [9] rfl (by decide)⟩

/-- C3 (amended): authentication succeeds with user id `u` exactly when the
token (after optional `"Bearer "` stripping and base64 + UTF-8 decoding)
splits on `:` into EXACTLY two parts `(provided_secret, u)` with the
provided secret byte-equal to `secret(u)` or `secret_legacy(u)`; any other
header — including every token whose user id itself contains a colon —
yields 401. -/
theorem auth_exact_two_parts (header uid : String) :
    authenticate header = some uid ↔ authAmendedSpec header uid := by
  constructor
  · intro h
    unfold authenticate verify_token at h
    unfold authAmendedSpec
    cases hb : b64Decode (stripBearer header) with
    | none =>
      simp only [hb] at h
      exact Option.noConfusion h
    | some bytes =>
      simp only [hb] at h
      cases hu : utf8Decode bytes with
      | none =>
        simp only [hu] at h
        exact Option.noConfusion h
      | some ts =>
        simp only [hu] at h
        cases hs : splitColon ts with
        | nil =>
          simp only [hs] at h
          exact Option.noConfusion h
        | cons a l1 =>
          cases l1 with
          | nil =>
            simp only [hs] at h
            exact Option.noConfusion h
          | cons b l2 =>
            cases l2 with
            | cons c l3 =>
              simp only [hs] at h
              exact Option.noConfusion h
            | nil =>
              simp only [hs] at h
              by_cases h1 : a = get_user_secret b
              · rw [if_pos h1] at h
                injection h with hbu
                subst hbu
                exact ⟨bytes, ts, a, rfl, hu, hs, Or.inl h1⟩
              · rw [if_neg h1] at h
                by_cases h2 : a = legacy_get_user_secret b
                · rw [if_pos h2] at h
                  injection h with hbu
                  subst hbu
                  exact ⟨bytes, ts, a, rfl, hu, hs, Or.inr h2⟩
                · rw [if_neg h2] at h
                  simp at h
  · rintro ⟨bytes, ts, provided, hb, hu, hs, hsec⟩
    unfold authenticate verify_token
    simp only [hb, hu, hs]
    rcases hsec with h1 | h2
    · rw [if_pos h1]
    · by_cases h1 : provided = get_user_secret uid
      · rw [if_pos h1]
      · rw [if_neg h1, if_pos h2]

end Equicloud

namespace Equicloud

theorem elim_false_eq_true {γ : Type} (o : Option γ) (f : γ → Bool) :
    o.elim false f = true ↔ ∃ c, o = some c ∧ f c = true := by
  cases o <;> simp

theorem delta_sync_downloads (cfg : Config) (zenc zdec : List Nat → Option (List Nat))
    (now : Int) (st : DataStore) (cm : List ClientManifestEntry) (uploads : List UploadEntry) :
    (delta_sync cfg zenc zdec now st cm uploads).1.downloads =
      (get_data_keys zdec st (keysToDownload (get_data_manifest st) cm)).map
        (fun e => DownloadEntry.mk e.key e.value e.version e.checksum) := by
  unfold delta_sync
  dsimp only
  split <;> rfl

theorem delta_sync_errors (cfg : Config) (zenc zdec : List Nat → Option (List Nat))
    (now : Int) (st : DataStore) (cm : List ClientManifestEntry) (uploads : List UploadEntry) :
    (delta_sync cfg zenc zdec now st cm uploads).1.errors =
      (admitUploads cfg (get_data_manifest st) cm uploads).errors := by
  unfold delta_sync
  dsimp only
  split <;> rfl

theorem get_data_manifest_keys (st : DataStore) :
    (get_data_manifest st).map (fun e => e.key) = st.map (fun r => r.key) := by
  unfold get_data_manifest
  rw [List.map_map]
  rfl

theorem lookupRow_isSome_of_mem_manifest (st : DataStore) (k : String)
    (h : ∃ s ∈ get_data_manifest st, s.key = k) : (lookupRow st k).isSome := by
  obtain ⟨s, hs, hk⟩ := h
  unfold get_data_manifest at hs
  obtain ⟨r, hr, hrs⟩ := List.mem_map.mp hs
  unfold lookupRow keyedFind
  rw [List.find?_isSome]
  refine ⟨r, hr, ?_⟩
  have : r.key = s.key := by rw [← hrs]
  simp [this, hk]

theorem get_data_keys_map_key (zdec : List Nat → Option (List Nat)) (st : DataStore)
    (keys : List String) (h : ∀ k ∈ keys, (lookupRow st k).isSome) :
    (get_data_keys zdec st keys).map (fun e => e.key) = keys := by
  induction keys with
  | nil => rfl
  | cons k0 ks ih =>
    have hk0 := h k0 (List.mem_cons_self k0 ks)
    obtain ⟨r, hr⟩ := Option.isSome_iff_exists.mp hk0
    have hr2 : keyedFind (fun x => x.key) st k0 = some r := hr
    have hkey : r.key = k0 := (keyedFind_mem (fun x => x.key) st k0 r hr2).2
    unfold get_data_keys at ih ⊢
    simp only [List.filterMap_cons, hr, Option.map_some, Option.map_some', List.map_cons]
    rw [ih (fun k hk => h k (List.mem_cons_of_mem k0 hk))]
    simp [hkey]

theorem mem_keysToDownload (sm : List DataManifestEntry) (cm : List ClientManifestEntry)
    (k : String) :
    k ∈ keysToDownload sm cm ↔
      ∃ s ∈ sm, s.key = k ∧
        ¬∃ c, lookupLastClient cm s.key = some c ∧
          c.version ≥ s.version ∧ c.checksum = s.checksum := by
  unfold keysToDownload
  rw [List.mem_map]
  constructor
  · rintro ⟨s, hs, rfl⟩
    obtain ⟨hmem, hpred⟩ := List.mem_filter.mp hs
    refine ⟨s, hmem, rfl, ?_⟩
    intro ⟨c, hc, hv, hck⟩
    have htrue : ((lookupLastClient cm s.key).elim false
        (fun c => decide (c.version ≥ s.version) && (c.checksum == s.checksum))) = true :=
      (elim_false_eq_true _ _).mpr ⟨c, hc, by simp [hv, hck]⟩
    rw [htrue] at hpred
    exact Bool.noConfusion hpred
  · rintro ⟨s, hmem, rfl, hno⟩
    refine ⟨s, List.mem_filter.mpr ⟨hmem, ?_⟩, rfl⟩
    have helim : ((lookupLastClient cm s.key).elim false
        (fun c => decide (c.version ≥ s.version) && (c.checksum == s.checksum))) = false := by
      by_contra hx
      rw [Bool.not_eq_false] at hx
      obtain ⟨c, hc, hfc⟩ := (elim_false_eq_true _ _).mp hx
      simp only [Bool.and_eq_true, decide_eq_true_eq, beq_iff_eq] at hfc
      exact hno ⟨c, hc, hfc.1, hfc.2⟩
    simp [helim]

end Equicloud

namespace Equicloud

/-- C5: in every sync response (success path), the download selection over
the server manifest picks exactly the keys for which it is NOT the case that
the client manifest holds the key with version ≥ the server's and an equal
checksum; a key the client manifest lacks is always selected; and the
response's `downloads` list carries exactly the selected keys. -/
theorem sync_download_selection (cfg : Config) (zenc zdec : List Nat → Option (List Nat))
    (now : Int) (st : DataStore) (cm : List ClientManifestEntry)
    (uploads : List UploadEntry) (k : String)
    (hnd : (st.map (fun r => r.key)).Nodup) :
    ((delta_sync cfg zenc zdec now st cm uploads).1.downloads.map (fun d => d.key) =
      keysToDownload (get_data_manifest st) cm) ∧
    (k ∈ keysToDownload (get_data_manifest st) cm ↔
      ∃ s, lookupLastServer (get_data_manifest st) k = some s ∧
        ¬∃ c, lookupLastClient cm k = some c ∧
          c.version ≥ s.version ∧ c.checksum = s.checksum) ∧
    (lookupLastClient cm k = none →
      (∃ s, lookupLastServer (get_data_manifest st) k = some s) →
      k ∈ keysToDownload (get_data_manifest st) cm) := by
  have hndm : ((get_data_manifest st).map (fun e => e.key)).Nodup := by
    rw [get_data_manifest_keys]
    exact hnd
  have hiff : k ∈ keysToDownload (get_data_manifest st) cm ↔
      ∃ s, lookupLastServer (get_data_manifest st) k = some s ∧
        ¬∃ c, lookupLastClient cm k = some c ∧
          c.version ≥ s.version ∧ c.checksum = s.checksum := by
    rw [mem_keysToDownload]
    constructor
    · rintro ⟨s, hmem, hkey, hno⟩
      refine ⟨s, ?_, by rw [← hkey]; exact hno⟩
      unfold lookupLastServer
      rw [keyedFind_reverse_nodup (fun e : DataManifestEntry => e.key)
        (get_data_manifest st) hndm k]
      rw [← hkey]
      exact keyedFind_nodup_mem (fun e => e.key) _ hndm s hmem
    · rintro ⟨s, hls, hno⟩
      unfold lookupLastServer at hls
      rw [keyedFind_reverse_nodup (fun e : DataManifestEntry => e.key)
        (get_data_manifest st) hndm k] at hls
      obtain ⟨hmem, hkey⟩ := keyedFind_mem (fun e => e.key) _ k s hls
      exact ⟨s, hmem, hkey, by rw [hkey]; exact hno⟩
  refine ⟨?_, hiff, ?_⟩
  · have h1 : ∀ k2 ∈ keysToDownload (get_data_manifest st) cm, (lookupRow st k2).isSome := by
      intro k2 hk2
      obtain ⟨s, hs, hk, _⟩ := (mem_keysToDownload _ _ _).mp hk2
      exact lookupRow_isSome_of_mem_manifest st k2 ⟨s, hs, hk⟩
    rw [delta_sync_downloads, List.map_map]
    exact get_data_keys_map_key zdec st _ h1
  · intro hcnone hsome
    refine hiff.mpr ?_
    obtain ⟨s, hls⟩ := hsome
    refine ⟨s, hls, ?_⟩
    rintro ⟨c, hc, _⟩
    rw [hcnone] at hc
    exact Option.noConfusion hc

/-- Witness for C5: with an empty client manifest a server key is selected
for download. -/
theorem sync_download_selection_witness :
    "x" ∈ keysToDownload (get_data_manifest [⟨"x", [1], 1, "c", 1, 0, 0⟩]) [] :=
  (sync_download_selection {} (fun _ => none) (fun _ => none) 0
      [⟨"x", [1], 1, "c", 1, 0, 0⟩] [] [] "x" (by decide)).2.2 rfl
    ⟨⟨"x", 1, "c", 1, 0⟩, by decide⟩

/-- C6: a sync whose client manifest equals the server's current manifest
(same keys, versions and checksums) and whose uploads list is empty returns
empty `downloads` and empty `errors`; since the no-upload response returns
the server manifest unchanged, replaying a prior response's
`server_manifest` is exactly this situation. -/
theorem sync_empty_delta_on_equal_manifest (cfg : Config)
    (zenc zdec : List Nat → Option (List Nat)) (now : Int) (st : DataStore)
    (cm : List ClientManifestEntry)
    (hnd : (st.map (fun r => r.key)).Nodup)
    (hcm : cm = (get_data_manifest st).map
      (fun e => ClientManifestEntry.mk e.key e.version e.checksum)) :
    (delta_sync cfg zenc zdec now st cm []).1.downloads = [] ∧
    (delta_sync cfg zenc zdec now st cm []).1.errors = [] := by
  have hndm : ((get_data_manifest st).map (fun e => e.key)).Nodup := by
    rw [get_data_manifest_keys]
    exact hnd
  have hndc : (cm.map (fun e => e.key)).Nodup := by
    rw [hcm, List.map_map]
    exact hndm
  have hclient : ∀ s ∈ get_data_manifest st,
      lookupLastClient cm s.key = some ⟨s.key, s.version, s.checksum⟩ := by
    intro s hmem
    unfold lookupLastClient
    rw [keyedFind_reverse_nodup (fun e : ClientManifestEntry => e.key) cm hndc s.key]
    unfold keyedFind
    rw [hcm, List.find?_map]
    have : List.find? (fun e => e.key == s.key) (get_data_manifest st) = some s := by
      exact keyedFind_nodup_mem (fun e => e.key) _ hndm s hmem
    have hcomp : ((fun e : ClientManifestEntry => e.key == s.key) ∘
        (fun e : DataManifestEntry => ClientManifestEntry.mk e.key e.version e.checksum)) =
        (fun e : DataManifestEntry => e.key == s.key) := rfl
    rw [hcomp, this]
    rfl
  have hdl : keysToDownload (get_data_manifest st) cm = [] := by
    unfold keysToDownload
    have hfil : (get_data_manifest st).filter (fun s =>
        !((lookupLastClient cm s.key).elim false
          (fun c => decide (c.version ≥ s.version) && (c.checksum == s.checksum)))) = [] := by
      rw [List.filter_eq_nil_iff]
      intro s hmem
      rw [hclient s hmem]
      simp
    rw [hfil]
    rfl
  constructor
  · rw [delta_sync_downloads, hdl]
    rfl
  · rw [delta_sync_errors]
    rfl

/-- Witness for C6: a concrete one-key store synced against its own
manifest yields no downloads and no errors. -/
theorem sync_empty_delta_witness :
    (delta_sync {} (fun _ => none) (fun _ => none) 9 [⟨"x", [1], 1, "c", 1, 0, 0⟩]
        [⟨"x", 1, "c"⟩] []).1.downloads = [] ∧
    (delta_sync {} (fun _ => none) (fun _ => none) 9 [⟨"x", [1], 1, "c", 1, 0, 0⟩]
        [⟨"x", 1, "c"⟩] []).1.errors = [] :=
  sync_empty_delta_on_equal_manifest {} (fun _ => none) (fun _ => none) 9
    [⟨"x", [1], 1, "c", 1, 0, 0⟩] [⟨"x", 1, "c"⟩] (by decide) (by decide)

end Equicloud

namespace Equicloud

theorem lookupRow_foldl_upsert {β : Type} (mk : β → DataRow) (rows : List β)
    (st : DataStore) (k : String) :
    lookupRow (rows.foldl (fun s p => upsertRow s (mk p)) st) k =
      match rows.reverse.find? (fun p => (mk p).key == k) with
      | some p => some (mk p)
      | none => lookupRow st k := by
  induction rows generalizing st with
  | nil => rfl
  | cons p ps ih =>
    rw [List.foldl_cons, ih (upsertRow st (mk p)), List.reverse_cons, List.find?_append]
    cases hf : ps.reverse.find? (fun q => (mk q).key == k) with
    | some q => rfl
    | none =>
      by_cases hk : (mk p).key = k
      · have hfp : List.find? (fun q => (mk q).key == k) [p] = some p := by
          simp [List.find?_cons, hk]
        rw [hfp]
        simp only [Option.none_or]
        rw [← hk]
        exact lookupRow_upsert_self st (mk p)
      · have hfp : List.find? (fun q => (mk q).key == k) [p] = none := by
          simp [List.find?_cons, hk]
        rw [hfp]
        simp only [Option.none_or]
        exact lookupRow_upsert_other st (mk p) k (fun e => hk (Eq.symm e))

theorem mapGet_versions_fold (st : DataStore) (keys : List String) (k : String)
    (m : List (String × Int × Int)) :
    mapGet (keys.foldl (fun m2 k2 =>
        match lookupRow st k2 with
        | some r => mapInsert m2 k2 (r.version, r.created_at)
        | none => m2) m) k =
      if k ∈ keys ∧ (lookupRow st k).isSome then
        (lookupRow st k).map (fun r => (r.version, r.created_at))
      else mapGet m k := by
  induction keys generalizing m with
  | nil => simp
  | cons k0 ks ih =>
    rw [List.foldl_cons, ih]
    by_cases hmem : k ∈ ks
    · by_cases hsome : (lookupRow st k).isSome
      · simp [hmem, hsome, List.mem_cons]
      · simp only [hmem, hsome, and_false, if_false, List.mem_cons]
        cases hrow : lookupRow st k0 with
        | some r =>
          have hk0 : k ≠ k0 := by
            intro e
            rw [e, hrow] at hsome
            simp at hsome
          rw [mapGet_insert_other m k0 (r.version, r.created_at) k hk0]
          simp
        | none => simp
    · by_cases hk0 : k = k0
      · subst hk0
        cases hrow : lookupRow st k with
        | some r =>
          simp only [hmem, false_and, if_false, hrow, List.mem_cons, true_or,
            Option.isSome_some, and_true, if_true, Option.map_some']
          exact mapGet_insert_self m k (r.version, r.created_at)
        | none =>
          simp [hmem, hrow]
      · cases hrow : lookupRow st k0 with
        | some r =>
          simp only [hmem, false_and, if_false, List.mem_cons, hk0, false_or]
          rw [mapGet_insert_other m k0 (r.version, r.created_at) k hk0]
        | none =>
          simp [hmem, hk0, hrow]

theorem mapGet_get_versions_batch (st : DataStore) (keys : List String) (k : String)
    (hmem : k ∈ keys) :
    mapGet (get_versions_batch st keys) k =
      (lookupRow st k).map (fun r => (r.version, r.created_at)) := by
  unfold get_versions_batch
  rw [mapGet_versions_fold st keys k []]
  cases hrow : lookupRow st k with
  | some r => simp [hmem, hrow]
  | none =>
    simp only [hmem, hrow, Option.isSome_none, Bool.false_eq_true, and_false, if_false,
      Option.map_none]
    rfl

end Equicloud

namespace Equicloud

theorem mem_keyedUpsert {α : Type} (keyf : α → String) (st : List α) (r x : α)
    (hx : x ∈ keyedUpsert keyf st r) : x ∈ st ∨ x = r := by
  unfold keyedUpsert at hx
  split at hx
  · obtain ⟨y, hy, hyx⟩ := List.mem_map.mp hx
    by_cases hk : keyf y == keyf r
    · right
      rw [if_pos hk] at hyx
      exact hyx.symm
    · left
      rw [if_neg hk] at hyx
      exact hyx ▸ hy
  · rcases List.mem_append.mp hx with h | h
    · exact Or.inl h
    · right
      simpa using h

theorem save_data_keys_batch_saved (cfg : Config) (zenc : List Nat → Option (List Nat))
    (now : Int) (st : DataStore) (entries : List (String × List Nat × String))
    (m : List (String × Int × Int)) :
    ∀ p ∈ (save_data_keys_batch cfg zenc now st entries m).2,
      p.2.2 = now ∧
      (∃ e ∈ entries, e.1 = p.1 ∧ e.2.1.length ≤ cfg.max_key_size_bytes) ∧
      p.2.1 = (match mapGet m p.1 with | some q => q.1 + 1 | none => 1) := by
  intro p hp
  unfold save_data_keys_batch at hp
  simp only at hp
  obtain ⟨q, hq, hqp⟩ := List.mem_map.mp hp
  obtain ⟨e, he, hfe⟩ := List.mem_filterMap.mp hq
  by_cases hlen : e.2.1.length > cfg.max_key_size_bytes
  · rw [if_pos hlen] at hfe
    exact Option.noConfusion hfe
  · rw [if_neg hlen] at hfe
    injection hfe with hfe2
    subst hfe2
    subst hqp
    refine ⟨rfl, ⟨e, he, rfl, le_of_not_lt hlen⟩, ?_⟩
    cases hget : mapGet m e.1 <;> simp [hget]

theorem save_data_keys_batch_stored (cfg : Config) (zenc : List Nat → Option (List Nat))
    (now : Int) (st : DataStore) (entries : List (String × List Nat × String))
    (m : List (String × Int × Int)) (k2 : String)
    (hadm : ∃ e ∈ entries, e.1 = k2 ∧ e.2.1.length ≤ cfg.max_key_size_bytes) :
    ∃ r2, lookupRow (save_data_keys_batch cfg zenc now st entries m).1 k2 = some r2 ∧
      r2.key = k2 ∧
      r2.version = (match mapGet m k2 with | some q => q.1 + 1 | none => 1) ∧
      r2.created_at = (match mapGet m k2 with | some q => q.2 | none => now) ∧
      r2.updated_at = now := by
  obtain ⟨e, he, hek, helen⟩ := hadm
  unfold save_data_keys_batch
  simp only
  rw [lookupRow_foldl_upsert]
  set prepared := entries.filterMap (fun e =>
    if e.2.1.length > cfg.max_key_size_bytes then none
    else
      let vc : Int × Int :=
        match mapGet m e.1 with
        | some p => (p.1 + 1, p.2)
        | none => (1, now)
      some (e.1, compress cfg zenc e.2.1, e.2.2, (e.2.1.length : Int), vc.1, vc.2)) with hprep
  have hmemq : ∃ q ∈ prepared, q.1 = k2 := by
    refine ⟨(e.1, compress cfg zenc e.2.1, e.2.2, (e.2.1.length : Int),
      (match mapGet m e.1 with | some p => (p.1 + 1, p.2) | none => (1, now) : Int × Int).1,
      (match mapGet m e.1 with | some p => (p.1 + 1, p.2) | none => (1, now) : Int × Int).2), ?_, hek⟩
    rw [hprep]
    refine List.mem_filterMap.mpr ⟨e, he, ?_⟩
    rw [if_neg (not_lt.mpr helen)]
  obtain ⟨q, hq, hqk⟩ := hmemq
  have hsome : (prepared.reverse.find? (fun p => p.1 == k2)).isSome := by
    rw [List.find?_isSome]
    exact ⟨q, List.mem_reverse.mpr hq, by simp [hqk]⟩
  obtain ⟨q0, hq0⟩ := Option.isSome_iff_exists.mp hsome
  have hq0k : q0.1 = k2 := by simpa using List.find?_some hq0
  have hq0mem : q0 ∈ prepared := List.mem_reverse.mp (List.mem_of_find?_eq_some hq0)
  obtain ⟨e0, he0, hfe0⟩ := List.mem_filterMap.mp (hprep ▸ hq0mem)
  by_cases hlen0 : e0.2.1.length > cfg.max_key_size_bytes
  · rw [if_pos hlen0] at hfe0
    exact Option.noConfusion hfe0
  · rw [if_neg hlen0] at hfe0
    injection hfe0 with hfe0e
    have he0k : e0.1 = k2 := by rw [← hq0k, ← hfe0e]
    refine ⟨⟨q0.1, q0.2.1, q0.2.2.2.2.1, q0.2.2.1, q0.2.2.2.1, q0.2.2.2.2.2, now⟩, ?_, hq0k, ?_, ?_, rfl⟩
    · rw [hq0]
    · rw [← hfe0e, ← he0k]
      simp only
      cases hget : mapGet m e0.1 <;> simp [hget]
    · rw [← hfe0e, ← he0k]
      simp only
      cases hget : mapGet m e0.1 <;> simp [hget]

theorem save_data_keys_batch_untouched (cfg : Config) (zenc : List Nat → Option (List Nat))
    (now : Int) (st : DataStore) (entries : List (String × List Nat × String))
    (m : List (String × Int × Int)) (k2 : String)
    (hno : ∀ e ∈ entries, e.1 ≠ k2) :
    lookupRow (save_data_keys_batch cfg zenc now st entries m).1 k2 = lookupRow st k2 := by
  unfold save_data_keys_batch
  simp only
  rw [lookupRow_foldl_upsert]
  have hnone : (entries.filterMap (fun e =>
      if e.2.1.length > cfg.max_key_size_bytes then none
      else
        let vc : Int × Int :=
          match mapGet m e.1 with
          | some p => (p.1 + 1, p.2)
          | none => (1, now)
        some (e.1, compress cfg zenc e.2.1, e.2.2, (e.2.1.length : Int),
          vc.1, vc.2))).reverse.find? (fun p => p.1 == k2) = none := by
    rw [List.find?_eq_none]
    intro q hq
    obtain ⟨e, he, hfe⟩ := List.mem_filterMap.mp (List.mem_reverse.mp hq)
    by_cases hlen : e.2.1.length > cfg.max_key_size_bytes
    · rw [if_pos hlen] at hfe
      exact Option.noConfusion hfe
    · rw [if_neg hlen] at hfe
      injection hfe with hfee
      have : q.1 = e.1 := by rw [← hfee]
      simp [this, hno e he]
  rw [hnone]

end Equicloud

namespace Equicloud

/-- C8: for every successful data write — single put (`save_data_key`),
quota-checked put, or batch put with the store-derived versions map — the
stored version is 1 when no row previously existed and the previous
version + 1 otherwise, `created_at` is preserved from the existing row (set
to the write time only on first write); hence the version is ≥ 1 (given all
stored versions are), strictly exceeds the overwritten row's version, and
`created_at` is unchanged by overwrites. -/
theorem version_allocation_spec (cfg : Config) (zenc : List Nat → Option (List Nat))
    (now : Int) (st : DataStore) (key : String) (value : List Nat) (checksum : String)
    (maxTotal : Int) (entries : List (String × List Nat × String))
    (hv : validate_key key = none) (hlen : value.length ≤ cfg.max_key_size_bytes)
    (hpos : ∀ r ∈ st, 1 ≤ r.version) :
    (save_data_key cfg zenc now st key value checksum =
      .ok (upsertRow st ⟨key, compress cfg zenc value,
            ((lookupRow st key).map (fun r => r.version + 1)).getD 1, checksum,
            (value.length : Int),
            ((lookupRow st key).map (fun r => r.created_at)).getD now, now⟩,
          ((lookupRow st key).map (fun r => r.version + 1)).getD 1, now)) ∧
    (lookupRow st key = none → ((lookupRow st key).map (fun r => r.version + 1)).getD 1 = 1) ∧
    (∀ r0, lookupRow st key = some r0 →
      ((lookupRow st key).map (fun r => r.version + 1)).getD 1 = r0.version + 1 ∧
      r0.version < ((lookupRow st key).map (fun r => r.version + 1)).getD 1) ∧
    (1 ≤ ((lookupRow st key).map (fun r => r.version + 1)).getD 1) ∧
    (∀ r2 ∈ upsertRow st ⟨key, compress cfg zenc value,
        ((lookupRow st key).map (fun r => r.version + 1)).getD 1, checksum,
        (value.length : Int),
        ((lookupRow st key).map (fun r => r.created_at)).getD now, now⟩,
      1 ≤ r2.version) ∧
    (∀ st2 v2 t2,
      save_data_key_with_quota_check cfg zenc now st key value checksum maxTotal =
        .ok (st2, some (v2, t2)) →
      v2 = ((lookupRow st key).map (fun r => r.version + 1)).getD 1 ∧ t2 = now ∧
      lookupRow st2 key = some ⟨key, compress cfg zenc value, v2, checksum,
        (value.length : Int), ((lookupRow st key).map (fun r => r.created_at)).getD now, now⟩) ∧
    (∀ p ∈ (save_data_keys_batch cfg zenc now st entries
        (get_versions_batch st (entries.map (fun e => e.1)))).2,
      p.2.2 = now ∧
      p.2.1 = ((lookupRow st p.1).map (fun r => r.version + 1)).getD 1 ∧
      1 ≤ p.2.1 ∧
      (∀ r0, lookupRow st p.1 = some r0 → r0.version < p.2.1)) ∧
    (∀ k2, (∃ e ∈ entries, e.1 = k2 ∧ e.2.1.length ≤ cfg.max_key_size_bytes) →
      ∃ r2, lookupRow (save_data_keys_batch cfg zenc now st entries
          (get_versions_batch st (entries.map (fun e => e.1)))).1 k2 = some r2 ∧
        r2.version = ((lookupRow st k2).map (fun r => r.version + 1)).getD 1 ∧
        r2.created_at = ((lookupRow st k2).map (fun r => r.created_at)).getD now ∧
        r2.updated_at = now) := by
  have hvers : ∀ k2 r0, lookupRow st k2 = some r0 → 1 ≤ r0.version := by
    intro k2 r0 h
    have hr0 : keyedFind (fun x : DataRow => x.key) st k2 = some r0 := h
    exact hpos r0 (keyedFind_mem (fun x : DataRow => x.key) st k2 r0 hr0).1
  refine ⟨?_, ?_, ?_, ?_, ?_, ?_, ?_, ?_⟩
  · unfold save_data_key
    rw [hv]
    rw [if_neg (not_lt.mpr hlen)]
    cases hrow : lookupRow st key <;> simp [hrow]
  · intro h
    rw [h]
    rfl
  · intro r0 h
    rw [h]
    simp
  · cases hrow : lookupRow st key with
    | none => simp
    | some r0 =>
      simp only [hrow, Option.map_some', Option.getD_some]
      have := hvers key r0 hrow
      omega
  · intro r2 hr2
    rcases mem_keyedUpsert (fun x : DataRow => x.key) st _ r2 hr2 with h | h
    · exact hpos r2 h
    · subst h
      simp only
      cases hrow : lookupRow st key with
      | none => simp
      | some r0 =>
        simp only [hrow, Option.map_some', Option.getD_some]
        have := hvers key r0 hrow
        omega
  · intro st2 v2 t2 hq
    unfold save_data_key_with_quota_check at hq
    rw [hv] at hq
    rw [if_neg (not_lt.mpr hlen)] at hq
    cases hrow : lookupRow st key with
    | none =>
      simp only [hrow] at hq
      split at hq
      · simp at hq
      · simp only [Except.ok.injEq, Prod.mk.injEq, Option.some.injEq] at hq
        obtain ⟨hst, hv2, ht2⟩ := hq
        subst hst
        subst hv2
        subst ht2
        refine ⟨rfl, rfl, ?_⟩
        exact lookupRow_upsert_self st _
    | some r0 =>
      simp only [hrow] at hq
      split at hq
      · simp at hq
      · simp only [Except.ok.injEq, Prod.mk.injEq, Option.some.injEq] at hq
        obtain ⟨hst, hv2, ht2⟩ := hq
        subst hst
        subst hv2
        subst ht2
        refine ⟨rfl, rfl, ?_⟩
        exact lookupRow_upsert_self st _
  · intro p hp
    obtain ⟨ht, ⟨e, he, hek, helen⟩, hver⟩ :=
      save_data_keys_batch_saved cfg zenc now st entries _ p hp
    have hkeymem : p.1 ∈ entries.map (fun e => e.1) := List.mem_map.mpr ⟨e, he, hek⟩
    rw [mapGet_get_versions_batch st _ p.1 hkeymem] at hver
    refine ⟨ht, ?_, ?_, ?_⟩
    · rw [hver]
      cases hrow : lookupRow st p.1 <;> simp [hrow]
    · rw [hver]
      cases hrow : lookupRow st p.1 with
      | none => simp
      | some r0 =>
        show (1 : Int) ≤ r0.version + 1
        have := hvers p.1 r0 hrow
        omega
    · intro r0 hrow
      rw [hver, hrow]
      show r0.version < r0.version + 1
      omega
  · intro k2 hadm
    obtain ⟨r2, hlk, hkey2, hver2, hcre2, hupd2⟩ :=
      save_data_keys_batch_stored cfg zenc now st entries _ k2 hadm
    have hkeymem : k2 ∈ entries.map (fun e => e.1) := by
      obtain ⟨e, he, hek, _⟩ := hadm
      exact List.mem_map.mpr ⟨e, he, hek⟩
    rw [mapGet_get_versions_batch st _ k2 hkeymem] at hver2 hcre2
    refine ⟨r2, hlk, ?_, ?_, hupd2⟩
    · rw [hver2]
      cases hrow : lookupRow st k2 <;> simp [hrow]
    · rw [hcre2]
      cases hrow : lookupRow st k2 <;> simp [hrow]

end Equicloud

namespace Equicloud

/-- Witness for C8: a first write on an empty store stores version 1 with
`created_at = updated_at = now`. -/
theorem version_allocation_spec_witness :
    save_data_key {} (fun _ => none) 7 [] "k" [1] "c" =
      .ok ([⟨"k", [1], 1, "c", 1, 7, 7⟩], 1, 7) := by
  have h := (version_allocation_spec {} (fun _ => none) 7 [] "k" [1] "c" 100
    [("k", [1], "c")] (by decide) (by decide) (by simp)).1
  rw [h]
  rfl

end Equicloud

namespace Equicloud

theorem admitStep_shape (cfg : Config) (sm : List DataManifestEntry)
    (cm : List ClientManifestEntry) (acc : AdmitState) (u : UploadEntry) :
    ∃ E V K rs, admitStep cfg sm cm acc u =
      ⟨acc.errors ++ E, acc.valid_uploads ++ V, acc.keys_to_check ++ K, rs⟩ ∧
      (∀ e ∈ E, e.key = u.key) ∧ (∀ v ∈ V, v.1 = u.key) ∧ (∀ x ∈ K, x = u.key) := by
  unfold admitStep
  cases hval : validate_key u.key with
  | some e =>
    exact ⟨[⟨u.key, keyErrorMessage e⟩], [], [], acc.running_size,
      by simp, by simp, by simp, by simp⟩
  | none =>
    by_cases hsize : u.value.length > cfg.max_key_size_bytes
    · rw [if_pos hsize]
      exact ⟨[⟨u.key, "Value exceeds 1MB limit"⟩], [], [], acc.running_size,
        by simp, by simp, by simp, by simp⟩
    · rw [if_neg hsize]
      by_cases hck : compute_checksum u.value ≠ u.checksum
      · rw [if_pos hck]
        exact ⟨[⟨u.key, "Checksum mismatch"⟩], [], [], acc.running_size,
          by simp, by simp, by simp, by simp⟩
      · rw [if_neg hck]
        dsimp only
        by_cases hd : (lookupLastServer sm u.key).elim false (fun s =>
            (lookupLastClient cm u.key).elim true (fun c => decide (c.version ≤ s.version)))
        · rw [if_pos hd]
          exact ⟨[], [], [], acc.running_size, by simp, by simp, by simp, by simp⟩
        · rw [if_neg hd]
          by_cases hq : acc.running_size -
              ((lookupLastServer sm u.key).map (fun s => s.size_bytes)).getD 0 +
              (u.value.length : Int) > (cfg.max_backup_size_bytes : Int)
          · rw [if_pos hq]
            exact ⟨[⟨u.key, "Total storage limit exceeded"⟩], [], [], acc.running_size,
              by simp, by simp, by simp, by simp⟩
          · rw [if_neg hq]
            exact ⟨[], [(u.key, u.value, u.checksum)], [u.key],
              acc.running_size -
                ((lookupLastServer sm u.key).map (fun s => s.size_bytes)).getD 0 +
                (u.value.length : Int),
              by simp, by simp, by simp, by simp⟩

theorem admit_fold_shape (cfg : Config) (sm : List DataManifestEntry)
    (cm : List ClientManifestEntry) (l : List UploadEntry) (acc : AdmitState) :
    ∃ E V K rs, l.foldl (admitStep cfg sm cm) acc =
      ⟨acc.errors ++ E, acc.valid_uploads ++ V, acc.keys_to_check ++ K, rs⟩ ∧
      (∀ e ∈ E, ∃ x ∈ l, e.key = x.key) ∧ (∀ v ∈ V, ∃ x ∈ l, v.1 = x.key) ∧
      (∀ kk ∈ K, ∃ x ∈ l, kk = x.key) := by
  induction l generalizing acc with
  | nil =>
    exact ⟨[], [], [], acc.running_size, by simp, by simp, by simp, by simp⟩
  | cons u us ih =>
    obtain ⟨E1, V1, K1, rs1, heq1, hE1, hV1, hK1⟩ := admitStep_shape cfg sm cm acc u
    obtain ⟨E2, V2, K2, rs2, heq2, hE2, hV2, hK2⟩ := ih (admitStep cfg sm cm acc u)
    refine ⟨E1 ++ E2, V1 ++ V2, K1 ++ K2, rs2, ?_, ?_, ?_, ?_⟩
    · rw [List.foldl_cons, heq2, heq1]
      simp [List.append_assoc]
    · intro e he
      rcases List.mem_append.mp he with h | h
      · exact ⟨u, List.mem_cons_self u us, hE1 e h⟩
      · obtain ⟨x, hx, hk⟩ := hE2 e h
        exact ⟨x, List.mem_cons_of_mem u hx, hk⟩
    · intro v hv2
      rcases List.mem_append.mp hv2 with h | h
      · exact ⟨u, List.mem_cons_self u us, hV1 v h⟩
      · obtain ⟨x, hx, hk⟩ := hV2 v h
        exact ⟨x, List.mem_cons_of_mem u hx, hk⟩
    · intro kk hkk
      rcases List.mem_append.mp hkk with h | h
      · exact ⟨u, List.mem_cons_self u us, hK1 kk h⟩
      · obtain ⟨x, hx, hk⟩ := hK2 kk h
        exact ⟨x, List.mem_cons_of_mem u hx, hk⟩

theorem dominated_iff (sm : List DataManifestEntry) (cm : List ClientManifestEntry)
    (k : String) :
    ((lookupLastServer sm k).elim false (fun s =>
      (lookupLastClient cm k).elim true (fun c => decide (c.version ≤ s.version))) = true) ↔
    (∃ s, lookupLastServer sm k = some s ∧
      (lookupLastClient cm k = none ∨
       ∃ c, lookupLastClient cm k = some c ∧ c.version ≤ s.version)) := by
  cases hs : lookupLastServer sm k with
  | none => simp
  | some s =>
    cases hc : lookupLastClient cm k with
    | none => simp
    | some c => simp

theorem mapGet_foldl_insert_isSome {α β : Type} (g : β → α) (keyb : β → String)
    (l : List β) (m0 : List (String × α)) (k : String)
    (h : (∃ v ∈ l, keyb v = k) ∨ (mapGet m0 k).isSome) :
    (mapGet (l.foldl (fun m v => mapInsert m (keyb v) (g v)) m0) k).isSome := by
  induction l generalizing m0 with
  | nil =>
    rcases h with ⟨v, hv, _⟩ | h
    · exact absurd hv (List.not_mem_nil v)
    · simpa using h
  | cons b bs ih =>
    rw [List.foldl_cons]
    apply ih
    rcases h with ⟨v, hv, hk⟩ | h
    · rcases List.mem_cons.mp hv with rfl | hmem
      · right
        rw [← hk, mapGet_insert_self]
        rfl
      · exact Or.inl ⟨v, hmem, hk⟩
    · right
      by_cases hkb : k = keyb b
      · rw [hkb, mapGet_insert_self]
        rfl
      · rw [mapGet_insert_other m0 (keyb b) (g b) k hkb]
        exact h

end Equicloud

namespace Equicloud

theorem admitStep_reduce (cfg : Config) (sm : List DataManifestEntry)
    (cm : List ClientManifestEntry) (acc : AdmitState) (u : UploadEntry)
    (hv : validate_key u.key = none) (hsize : u.value.length ≤ cfg.max_key_size_bytes)
    (hck : compute_checksum u.value = u.checksum) :
    admitStep cfg sm cm acc u =
      (if (lookupLastServer sm u.key).elim false (fun s =>
          (lookupLastClient cm u.key).elim true (fun c => decide (c.version ≤ s.version)))
        then acc
        else if acc.running_size -
            ((lookupLastServer sm u.key).map (fun s => s.size_bytes)).getD 0 +
            (u.value.length : Int) > (cfg.max_backup_size_bytes : Int) then
          { acc with errors := acc.errors ++ [⟨u.key, "Total storage limit exceeded"⟩] }
        else
          { acc with
            running_size := acc.running_size -
              ((lookupLastServer sm u.key).map (fun s => s.size_bytes)).getD 0 +
              (u.value.length : Int)
            keys_to_check := acc.keys_to_check ++ [u.key]
            valid_uploads := acc.valid_uploads ++ [(u.key, u.value, u.checksum)] }) := by
  unfold admitStep
  rw [hv]
  rw [if_neg (not_lt.mpr hsize)]
  rw [if_neg (show ¬(compute_checksum u.value ≠ u.checksum) from fun h => h hck)]

theorem save_data_keys_batch_mem_saved (cfg : Config) (zenc : List Nat → Option (List Nat))
    (now : Int) (st : DataStore) (entries : List (String × List Nat × String))
    (m : List (String × Int × Int)) (k : String) (val : List Nat) (ck : String)
    (he : (k, val, ck) ∈ entries) (hlen : val.length ≤ cfg.max_key_size_bytes) :
    ∃ v2, (k, v2, now) ∈ (save_data_keys_batch cfg zenc now st entries m).2 := by
  unfold save_data_keys_batch
  simp only
  refine ⟨(match mapGet m k with
    | some p => ((p.1 + 1 : Int), p.2)
    | none => ((1 : Int), now)).1, List.mem_map.mpr
      ⟨(k, compress cfg zenc val, ck, (val.length : Int),
        (match mapGet m k with
          | some p => ((p.1 + 1 : Int), p.2)
          | none => ((1 : Int), now)).1,
        (match mapGet m k with
          | some p => ((p.1 + 1 : Int), p.2)
          | none => ((1 : Int), now)).2),
        List.mem_filterMap.mpr ⟨(k, val, ck), he, ?_⟩, rfl⟩⟩
  rw [if_neg (not_lt.mpr hlen)]

theorem delta_sync_uploaded_key_subset (cfg : Config)
    (zenc zdec : List Nat → Option (List Nat)) (now : Int) (st : DataStore)
    (cm : List ClientManifestEntry) (uploads : List UploadEntry) :
    ∀ r ∈ (delta_sync cfg zenc zdec now st cm uploads).1.uploaded,
      ∃ v ∈ (admitUploads cfg (get_data_manifest st) cm uploads).valid_uploads,
        r.key = v.1 := by
  intro r hr
  unfold delta_sync at hr
  dsimp only at hr
  split at hr
  · simp at hr
  · obtain ⟨s, hsm, hmap⟩ := List.mem_filterMap.mp hr
    obtain ⟨info, hinfo, hres⟩ := Option.map_eq_some'.mp hmap
    obtain ⟨_, ⟨e, he, hek, _⟩, _⟩ :=
      save_data_keys_batch_saved cfg zenc now st _ _ s hsm
    exact ⟨e, he, by rw [← hres]; exact hek.symm⟩

theorem delta_sync_store_untouched (cfg : Config)
    (zenc zdec : List Nat → Option (List Nat)) (now : Int) (st : DataStore)
    (cm : List ClientManifestEntry) (uploads : List UploadEntry) (k : String)
    (hno : ∀ v ∈ (admitUploads cfg (get_data_manifest st) cm uploads).valid_uploads,
      v.1 ≠ k) :
    lookupRow (delta_sync cfg zenc zdec now st cm uploads).2 k = lookupRow st k := by
  unfold delta_sync
  dsimp only
  split
  · rfl
  · exact save_data_keys_batch_untouched cfg zenc now st _ _ k hno

theorem delta_sync_uploaded_mem (cfg : Config)
    (zenc zdec : List Nat → Option (List Nat)) (now : Int) (st : DataStore)
    (cm : List ClientManifestEntry) (uploads : List UploadEntry) (k : String)
    (val : List Nat) (ck : String)
    (hmem : (k, val, ck) ∈ (admitUploads cfg (get_data_manifest st) cm uploads).valid_uploads)
    (hlen : val.length ≤ cfg.max_key_size_bytes) :
    ∃ r ∈ (delta_sync cfg zenc zdec now st cm uploads).1.uploaded, r.key = k := by
  unfold delta_sync
  dsimp only
  split
  · rename_i hempty
    rw [hempty] at hmem
    simp at hmem
  · obtain ⟨v2, hsaved⟩ := save_data_keys_batch_mem_saved cfg zenc now st _
      (get_versions_batch st (admitUploads cfg (get_data_manifest st) cm uploads).keys_to_check)
      k val ck hmem hlen
    have hinfo : (mapGet ((admitUploads cfg (get_data_manifest st) cm uploads).valid_uploads.foldl
        (fun m v => mapInsert m v.1 (v.2.2, (v.2.1.length : Int))) []) k).isSome := by
      apply mapGet_foldl_insert_isSome (fun v : String × List Nat × String =>
        (v.2.2, (v.2.1.length : Int))) (fun v => v.1)
      exact Or.inl ⟨(k, val, ck), hmem, rfl⟩
    obtain ⟨info, hinfo2⟩ := Option.isSome_iff_exists.mp hinfo
    refine ⟨⟨k, v2, info.1⟩, List.mem_filterMap.mpr ⟨(k, v2, now), hsaved, ?_⟩, rfl⟩
    simp only [hinfo2]
    rfl

end Equicloud

namespace Equicloud

/-- C4: for every upload entry occurring once among the request's uploads
that passes key validation, the per-value cap and the checksum check, the
upload is silently dropped — no error entry, not in `uploaded`, and the
stored row for its key unchanged — exactly when the server manifest
contains its key and the client manifest either lacks the key or declares a
version ≤ the server's version for it. -/
theorem sync_upload_dominance_filter (cfg : Config)
    (zenc zdec : List Nat → Option (List Nat)) (now : Int) (st : DataStore)
    (cm : List ClientManifestEntry) (pre post : List UploadEntry) (u : UploadEntry)
    (hpre : ∀ x ∈ pre, x.key ≠ u.key) (hpost : ∀ x ∈ post, x.key ≠ u.key)
    (hv : validate_key u.key = none)
    (hlen : u.value.length ≤ cfg.max_key_size_bytes)
    (hck : compute_checksum u.value = u.checksum) :
    ((∀ e ∈ (delta_sync cfg zenc zdec now st cm (pre ++ u :: post)).1.errors,
        e.key ≠ u.key) ∧
     (∀ r ∈ (delta_sync cfg zenc zdec now st cm (pre ++ u :: post)).1.uploaded,
        r.key ≠ u.key) ∧
     lookupRow (delta_sync cfg zenc zdec now st cm (pre ++ u :: post)).2 u.key =
       lookupRow st u.key) ↔
    (∃ s, lookupLastServer (get_data_manifest st) u.key = some s ∧
      (lookupLastClient cm u.key = none ∨
       ∃ c, lookupLastClient cm u.key = some c ∧ c.version ≤ s.version)) := by
  rw [← dominated_iff (get_data_manifest st) cm u.key]
  set sm := get_data_manifest st with hsm
  have hfold : admitUploads cfg sm cm (pre ++ u :: post) =
      post.foldl (admitStep cfg sm cm)
        (admitStep cfg sm cm (pre.foldl (admitStep cfg sm cm)
          ⟨[], [], [], (sm.map (fun e => e.size_bytes)).sum⟩) u) := by
    unfold admitUploads
    rw [List.foldl_append, List.foldl_cons]
  obtain ⟨E1, V1, K1, rs1, heqP, hE1, hV1, hK1⟩ :=
    admit_fold_shape cfg sm cm pre ⟨[], [], [], (sm.map (fun e => e.size_bytes)).sum⟩
  set P := pre.foldl (admitStep cfg sm cm)
    ⟨[], [], [], (sm.map (fun e => e.size_bytes)).sum⟩ with hPdef
  have hPerr : P.errors = E1 := by rw [heqP]; simp
  have hPval : P.valid_uploads = V1 := by rw [heqP]; simp
  by_cases hd : (lookupLastServer sm u.key).elim false (fun s =>
      (lookupLastClient cm u.key).elim true (fun c => decide (c.version ≤ s.version))) = true
  · have hstep : admitStep cfg sm cm P u = P := by
      rw [admitStep_reduce cfg sm cm P u hv hlen hck, if_pos hd]
    rw [hstep] at hfold
    obtain ⟨E2, V2, K2, rs2, heqF, hE2, hV2, hK2⟩ := admit_fold_shape cfg sm cm post P
    rw [heqF] at hfold
    have herr : ∀ e ∈ (admitUploads cfg sm cm (pre ++ u :: post)).errors, e.key ≠ u.key := by
      rw [hfold]
      intro e he
      rcases List.mem_append.mp he with h | h
      · rw [hPerr] at h
        obtain ⟨x, hx, hk⟩ := hE1 e h
        rw [hk]
        exact hpre x hx
      · obtain ⟨x, hx, hk⟩ := hE2 e h
        rw [hk]
        exact hpost x hx
    have hvalid : ∀ v ∈ (admitUploads cfg sm cm (pre ++ u :: post)).valid_uploads,
        v.1 ≠ u.key := by
      rw [hfold]
      intro v hvm
      rcases List.mem_append.mp hvm with h | h
      · rw [hPval] at h
        obtain ⟨x, hx, hk⟩ := hV1 v h
        rw [hk]
        exact hpre x hx
      · obtain ⟨x, hx, hk⟩ := hV2 v h
        rw [hk]
        exact hpost x hx
    constructor
    · intro _
      exact hd
    · intro _
      refine ⟨?_, ?_, ?_⟩
      · rw [delta_sync_errors]
        exact herr
      · intro r hr
        obtain ⟨v, hvmem, hk⟩ :=
          delta_sync_uploaded_key_subset cfg zenc zdec now st cm _ r hr
        rw [hk]
        exact hvalid v hvmem
      · exact delta_sync_store_untouched cfg zenc zdec now st cm _ u.key hvalid
  · constructor
    · rintro ⟨herr, hupl, _⟩
      exfalso
      rw [admitStep_reduce cfg sm cm P u hv hlen hck, if_neg hd] at hfold
      by_cases hq : P.running_size -
          ((lookupLastServer sm u.key).map (fun s => s.size_bytes)).getD 0 +
          (u.value.length : Int) > (cfg.max_backup_size_bytes : Int)
      · rw [if_pos hq] at hfold
        obtain ⟨E2, V2, K2, rs2, heqF, hE2, hV2, hK2⟩ := admit_fold_shape cfg sm cm post
          { P with errors := P.errors ++ [⟨u.key, "Total storage limit exceeded"⟩] }
        rw [heqF] at hfold
        have hmem : (⟨u.key, "Total storage limit exceeded"⟩ : SyncError) ∈
            (admitUploads cfg sm cm (pre ++ u :: post)).errors := by
          rw [hfold]
          exact List.mem_append.mpr (Or.inl (List.mem_append.mpr (Or.inr (by simp))))
        have hcontra := herr _ (by rw [delta_sync_errors]; exact hmem)
        exact hcontra rfl
      · rw [if_neg hq] at hfold
        obtain ⟨E2, V2, K2, rs2, heqF, hE2, hV2, hK2⟩ := admit_fold_shape cfg sm cm post
          { P with
            running_size := P.running_size -
              ((lookupLastServer sm u.key).map (fun s => s.size_bytes)).getD 0 +
              (u.value.length : Int)
            keys_to_check := P.keys_to_check ++ [u.key]
            valid_uploads := P.valid_uploads ++ [(u.key, u.value, u.checksum)] }
        rw [heqF] at hfold
        have hmem : (u.key, u.value, u.checksum) ∈
            (admitUploads cfg sm cm (pre ++ u :: post)).valid_uploads := by
          rw [hfold]
          exact List.mem_append.mpr (Or.inl (List.mem_append.mpr (Or.inr (by simp))))
        obtain ⟨r, hrmem, hrk⟩ := delta_sync_uploaded_mem cfg zenc zdec now st cm _
          u.key u.value u.checksum hmem hlen
        exact (hupl r hrmem) hrk
    · intro h
      exact absurd h hd

end Equicloud

namespace Equicloud

/-- Witness for C4: an upload dominated by an existing server row leaves
the stored row untouched. -/
theorem sync_upload_dominance_filter_witness :
    lookupRow (delta_sync {} (fun _ => none) (fun _ => none) 9
      [⟨"k", [1], 5, "c", 1, 0, 0⟩] [] ([] ++ ⟨"k", [], compute_checksum []⟩ :: [])).2 "k" =
    lookupRow [⟨"k", [1], 5, "c", 1, 0, 0⟩] "k" :=
  ((sync_upload_dominance_filter {} (fun _ => none) (fun _ => none) 9
    [⟨"k", [1], 5, "c", 1, 0, 0⟩] [] [] [] ⟨"k", [], compute_checksum []⟩
    (by simp) (by simp) (by decide) (by decide) rfl).mpr
    ⟨⟨"k", 5, "c", 1, 0⟩, by decide, Or.inl rfl⟩).2.2

end Equicloud

namespace Equicloud

theorem delta_sync_store_else (cfg : Config) (zenc zdec : List Nat → Option (List Nat))
    (now : Int) (st : DataStore) (cm : List ClientManifestEntry)
    (uploads : List UploadEntry)
    (h : (admitUploads cfg (get_data_manifest st) cm uploads).valid_uploads ≠ []) :
    (delta_sync cfg zenc zdec now st cm uploads).2 =
      (save_data_keys_batch cfg zenc now st
        (admitUploads cfg (get_data_manifest st) cm uploads).valid_uploads
        (get_versions_batch st
          (admitUploads cfg (get_data_manifest st) cm uploads).keys_to_check)).1 := by
  unfold delta_sync
  dsimp only
  split
  · rename_i he
    exact absurd he h
  · rfl

theorem delta_sync_uploaded_else (cfg : Config) (zenc zdec : List Nat → Option (List Nat))
    (now : Int) (st : DataStore) (cm : List ClientManifestEntry)
    (uploads : List UploadEntry)
    (h : (admitUploads cfg (get_data_manifest st) cm uploads).valid_uploads ≠ []) :
    (delta_sync cfg zenc zdec now st cm uploads).1.uploaded =
      (save_data_keys_batch cfg zenc now st
        (admitUploads cfg (get_data_manifest st) cm uploads).valid_uploads
        (get_versions_batch st
          (admitUploads cfg (get_data_manifest st) cm uploads).keys_to_check)).2.filterMap
        (fun s => (mapGet ((admitUploads cfg (get_data_manifest st) cm
            uploads).valid_uploads.foldl
            (fun m v => mapInsert m v.1 (v.2.2, (v.2.1.length : Int))) []) s.1).map
          (fun info => UploadResult.mk s.1 s.2.1 info.1)) := by
  unfold delta_sync
  dsimp only
  split
  · rename_i he
    exact absurd he h
  · rfl


/-- C10: when one sync request carries two upload entries with the same key
and both pass every admission check, both are admitted and persisted, both
receive the SAME version number — the pre-existing version + 1, or 1 when
the key did not exist — and the response's `uploaded` list carries the key
twice with that same version (not consecutive versions). -/
theorem sync_duplicate_key_same_version (cfg : Config)
    (zenc zdec : List Nat → Option (List Nat)) (now : Int) (st : DataStore)
    (cm : List ClientManifestEntry) (k : String) (val1 val2 : List Nat) (ck1 ck2 : String)
    (hv : validate_key k = none)
    (hlen1 : val1.length ≤ cfg.max_key_size_bytes)
    (hlen2 : val2.length ≤ cfg.max_key_size_bytes)
    (hck1 : compute_checksum val1 = ck1) (hck2 : compute_checksum val2 = ck2)
    (hnd : ((lookupLastServer (get_data_manifest st) k).elim false (fun s =>
      (lookupLastClient cm k).elim true (fun c => decide (c.version ≤ s.version)))) = false)
    (hq1 : ¬(((get_data_manifest st).map (fun e => e.size_bytes)).sum -
      ((lookupLastServer (get_data_manifest st) k).map (fun s => s.size_bytes)).getD 0 +
      (val1.length : Int) > (cfg.max_backup_size_bytes : Int)))
    (hq2 : ¬((((get_data_manifest st).map (fun e => e.size_bytes)).sum -
      ((lookupLastServer (get_data_manifest st) k).map (fun s => s.size_bytes)).getD 0 +
      (val1.length : Int)) -
      ((lookupLastServer (get_data_manifest st) k).map (fun s => s.size_bytes)).getD 0 +
      (val2.length : Int) > (cfg.max_backup_size_bytes : Int))) :
    (delta_sync cfg zenc zdec now st cm [⟨k, val1, ck1⟩, ⟨k, val2, ck2⟩]).1.uploaded =
      [⟨k, ((lookupRow st k).map (fun r => r.version + 1)).getD 1, ck2⟩,
       ⟨k, ((lookupRow st k).map (fun r => r.version + 1)).getD 1, ck2⟩] ∧
    (delta_sync cfg zenc zdec now st cm [⟨k, val1, ck1⟩, ⟨k, val2, ck2⟩]).1.errors = [] ∧
    ∃ r2, lookupRow (delta_sync cfg zenc zdec now st cm
        [⟨k, val1, ck1⟩, ⟨k, val2, ck2⟩]).2 k = some r2 ∧
      r2.version = ((lookupRow st k).map (fun r => r.version + 1)).getD 1 := by
  have hA : admitUploads cfg (get_data_manifest st) cm [⟨k, val1, ck1⟩, ⟨k, val2, ck2⟩] =
      ⟨[], [(k, val1, ck1), (k, val2, ck2)], [k, k],
        ((((get_data_manifest st).map (fun e => e.size_bytes)).sum -
          ((lookupLastServer (get_data_manifest st) k).map (fun s => s.size_bytes)).getD 0 +
          (val1.length : Int)) -
          ((lookupLastServer (get_data_manifest st) k).map (fun s => s.size_bytes)).getD 0 +
          (val2.length : Int))⟩ := by
    unfold admitUploads
    rw [List.foldl_cons]
    rw [admitStep_reduce cfg (get_data_manifest st) cm _ ⟨k, val1, ck1⟩ hv hlen1 hck1]
    rw [if_neg (by rw [hnd]; exact Bool.false_ne_true), if_neg hq1]
    rw [List.foldl_cons, List.foldl_nil]
    rw [admitStep_reduce cfg (get_data_manifest st) cm _ ⟨k, val2, ck2⟩ hv hlen2 hck2]
    rw [if_neg (by rw [hnd]; exact Bool.false_ne_true), if_neg hq2]
    rfl
  have hne : (admitUploads cfg (get_data_manifest st) cm
      [⟨k, val1, ck1⟩, ⟨k, val2, ck2⟩]).valid_uploads ≠ [] := by
    rw [hA]
    simp
  have hinfo : ([(k, val1, ck1), (k, val2, ck2)] :
      List (String × List Nat × String)).foldl
      (fun m v => mapInsert m v.1 (v.2.2, (v.2.1.length : Int))) [] =
      [(k, (ck2, (val2.length : Int)))] := by
    simp [mapInsert, keyedUpsert]
  have hex : mapGet (get_versions_batch st [k, k]) k =
      (lookupRow st k).map (fun r => (r.version, r.created_at)) :=
    mapGet_get_versions_batch st [k, k] k (by simp)
  have hbatch : (save_data_keys_batch cfg zenc now st [(k, val1, ck1), (k, val2, ck2)]
      (get_versions_batch st [k, k])).2 =
      [(k, ((lookupRow st k).map (fun r => r.version + 1)).getD 1, now),
       (k, ((lookupRow st k).map (fun r => r.version + 1)).getD 1, now)] := by
    unfold save_data_keys_batch
    simp only [List.filterMap_cons, List.filterMap_nil,
      if_neg (not_lt.mpr hlen1), if_neg (not_lt.mpr hlen2)]
    simp only [hex]
    cases hrow : lookupRow st k <;> simp
  refine ⟨?_, ?_, ?_⟩
  · rw [delta_sync_uploaded_else cfg zenc zdec now st cm _ hne, hA]
    show (save_data_keys_batch cfg zenc now st [(k, val1, ck1), (k, val2, ck2)]
      (get_versions_batch st [k, k])).2.filterMap _ = _
    rw [hbatch]
    simp only [List.filterMap_cons, List.filterMap_nil]
    rw [hinfo]
    simp [mapGet, keyedFind]
  · rw [delta_sync_errors, hA]
  · rw [delta_sync_store_else cfg zenc zdec now st cm _ hne, hA]
    obtain ⟨r2, hlk, _, hver, _, _⟩ := save_data_keys_batch_stored cfg zenc now st
      [(k, val1, ck1), (k, val2, ck2)] (get_versions_batch st [k, k]) k
      ⟨(k, val1, ck1), by simp, rfl, hlen1⟩
    refine ⟨r2, hlk, ?_⟩
    rw [hver, hex]
    cases hrow : lookupRow st k <;> simp

end Equicloud

namespace Equicloud

/-- Witness for C10: two uploads of the fresh key `"k"` in one request both
report version 1. -/
theorem sync_duplicate_key_same_version_witness :
    (delta_sync {} (fun _ => none) (fun _ => none) 9 [] []
      [⟨"k", [], compute_checksum []⟩, ⟨"k", [0], compute_checksum [0]⟩]).1.uploaded =
      [⟨"k", 1, compute_checksum [0]⟩, ⟨"k", 1, compute_checksum [0]⟩] := by
  have h := (sync_duplicate_key_same_version {} (fun _ => none) (fun _ => none) 9 [] []
    "k" [] [0] (compute_checksum []) (compute_checksum [0])
    (by decide) (by decide) (by decide) rfl rfl rfl (by decide) (by decide)).1
  rw [h]
  rfl

end Equicloud
